import Mathlib

/-!
Verification of the Bill_Processing harvesting scripts.

This file gives a shallow embedding, in Lean, of the three Python scripts of
the repository and proves (or refutes) the testable properties of their
specification:

* `Adaptive` models `Adaptive_API_Bill_Requests.py` (the adaptive range
  partitioner over calendar date ranges);
* `Filler` models `Bill_Info_API_Filler.py` (key-rotating retry fetcher,
  credential queues and the batch checkpoint pipeline);
* `Extract` models the field-extraction script (per-column parsing with
  fallback defaults).

The remote API, the event loop and the filesystem are collaborators: network
responses are supplied by oracle functions, and the persistent CSV file is
modelled as an optional list of appended chunks.
-/

/-- Concatenation of the lists produced by `f` over `l`, in order. -/
def catMap (f : α → List β) : List α → List β
  | [] => []
  | a :: l => f a ++ catMap f l

@[simp] theorem catMap_nil (f : α → List β) : catMap f [] = [] := rfl

@[simp] theorem catMap_cons (f : α → List β) (a : α) (l : List α) :
    catMap f (a :: l) = f a ++ catMap f l := rfl

namespace Adaptive

/-- A calendar timestamp with minute resolution, mirroring the Python
`datetime` values manipulated by `Adaptive_API_Bill_Requests.py` (every
datetime built by that script has zero seconds and microseconds, and every
increment it adds is a whole number of minutes). -/
structure Dt where
  year : Int
  month : Nat
  day : Nat
  hour : Nat
  minute : Nat
deriving DecidableEq, Repr

/-- Python `datetime` comparison: lexicographic on the components. -/
def dtLt (a b : Dt) : Prop :=
  a.year < b.year
    ∨ (a.year = b.year ∧ a.month < b.month)
    ∨ (a.year = b.year ∧ a.month = b.month ∧ a.day < b.day)
    ∨ (a.year = b.year ∧ a.month = b.month ∧ a.day = b.day ∧ a.hour < b.hour)
    ∨ (a.year = b.year ∧ a.month = b.month ∧ a.day = b.day ∧ a.hour = b.hour
        ∧ a.minute < b.minute)

instance (a b : Dt) : Decidable (dtLt a b) := by unfold dtLt; exact inferInstance

/-- Python `min(a, b)` on datetimes (returns the first argument on ties). -/
def dtMin (a b : Dt) : Dt := if dtLt b a then b else a

set_option maxHeartbeats 1000000 in
theorem dtLt_total (a b : Dt) : dtLt a b ∨ a = b ∨ dtLt b a := by
  rcases a with ⟨ay, am, ad, ah, ami⟩
  rcases b with ⟨by_, bm, bd, bh, bmi⟩
  simp only [dtLt, Dt.mk.injEq]
  omega

theorem dtLt_irrefl (a : Dt) : ¬ dtLt a a := by
  rcases a with ⟨ay, am, ad, ah, ami⟩
  simp only [dtLt]
  omega

/-- Gregorian leap year (as in Python's `datetime`/`timedelta` arithmetic). -/
def isLeap (y : Int) : Bool := y % 4 == 0 && (y % 100 != 0 || y % 400 == 0)

/-- Length of month `m` of year `y` in the proleptic Gregorian calendar. -/
def daysInMonth (y : Int) (m : Nat) : Nat :=
  if m = 2 then (if isLeap y then 29 else 28)
  else if m = 4 ∨ m = 6 ∨ m = 9 ∨ m = 11 then 30
  else 31

theorem daysInMonth_pos (y : Int) (m : Nat) : 1 ≤ daysInMonth y m := by
  unfold daysInMonth; split_ifs <;> omega

theorem daysInMonth_le (y : Int) (m : Nat) : daysInMonth y m ≤ 31 := by
  unfold daysInMonth; split_ifs <;> omega

theorem daysInMonth_twelve (y : Int) : daysInMonth y 12 = 31 := by
  simp [daysInMonth]

/-- Day-overflow normalisation used by minute addition: while the day count
exceeds the length of the current month, roll the excess into the following
month.  The fuel is an upper bound for the day count, which strictly
decreases at every roll-over. -/
def normDaysF : Nat → Int → Nat → Nat → Nat → Nat → Dt
  | 0, y, m, d, h, mi => ⟨y, m, d, h, mi⟩
  | f + 1, y, m, d, h, mi =>
    if d ≤ daysInMonth y m then ⟨y, m, d, h, mi⟩
    else if m = 12 then normDaysF f (y + 1) 1 (d - 31) h mi
    else normDaysF f y (m + 1) (d - daysInMonth y m) h mi

/-- `d + timedelta(minutes = n)` on calendar timestamps: carry minutes into
hours, hours into days, and roll excess days through the month lengths. -/
def addMinutes (d : Dt) (n : Nat) : Dt :=
  let tm := d.minute + n
  let th := d.hour + tm / 60
  let td := d.day + th / 24
  normDaysF td d.year d.month td (th % 24) (tm % 60)

/-- A structurally valid calendar timestamp (what Python's `datetime`
constructor enforces). -/
def Valid (d : Dt) : Prop :=
  1 ≤ d.month ∧ d.month ≤ 12 ∧ 1 ≤ d.day ∧ d.day ≤ daysInMonth d.year d.month
    ∧ d.hour < 24 ∧ d.minute < 60

instance (d : Dt) : Decidable (Valid d) := by unfold Valid; exact inferInstance

/-- Mixed-radix rank of a timestamp; strictly monotone along `dtLt` on valid
timestamps, used only to measure loop progress. -/
def rank (d : Dt) : Int :=
  (((d.year * 12 + d.month) * 32 + d.day) * 24 + d.hour) * 60 + d.minute

theorem rank_lt_of_dtLt {a b : Dt} (ha : Valid a) (hb : Valid b)
    (h : dtLt a b) : rank a < rank b := by
  obtain ⟨ham1, ham2, had1, had2, hah, hami⟩ := ha
  obtain ⟨hbm1, hbm2, hbd1, hbd2, hbh, hbmi⟩ := hb
  have had3 : a.day ≤ 31 := le_trans had2 (daysInMonth_le _ _)
  have hbd3 : b.day ≤ 31 := le_trans hbd2 (daysInMonth_le _ _)
  rcases a with ⟨ay, am, ad, ah, ami⟩
  rcases b with ⟨by_, bm, bd, bh, bmi⟩
  simp only [dtLt] at h
  simp only [rank] at *
  omega

theorem rank_le_of_not_dtLt {a b : Dt} (ha : Valid a) (hb : Valid b)
    (h : ¬ dtLt b a) : rank a ≤ rank b := by
  rcases dtLt_total a b with h1 | h1 | h1
  · exact le_of_lt (rank_lt_of_dtLt ha hb h1)
  · rw [h1]
  · exact absurd h1 h

theorem normDaysF_valid (f : Nat) (y : Int) (m d h mi : Nat)
    (hf : d ≤ f) (hm1 : 1 ≤ m) (hm2 : m ≤ 12) (hd : 1 ≤ d)
    (hh : h < 24) (hmi : mi < 60) :
    Valid (normDaysF f y m d h mi) := by
  induction f generalizing y m d with
  | zero => omega
  | succ f ih =>
    rw [normDaysF]
    split
    · exact ⟨hm1, hm2, hd, by assumption, hh, hmi⟩
    · rename_i hgt
      split
      · rename_i h12
        subst h12
        rw [daysInMonth_twelve] at hgt
        exact ih (y + 1) 1 (d - 31) (by omega) (by omega) (by omega) (by omega)
      · rename_i h12
        have h1 := daysInMonth_pos y m
        exact ih y (m + 1) (d - daysInMonth y m) (by omega) (by omega)
          (by omega) (by omega)

/-- The month position of `normDaysF` never moves backwards: the result is
either the input untouched or lies in a strictly later month. -/
theorem normDaysF_cases (f : Nat) (y : Int) (m d h mi : Nat) :
    normDaysF f y m d h mi = ⟨y, m, d, h, mi⟩
      ∨ (y < (normDaysF f y m d h mi).year
          ∨ (y = (normDaysF f y m d h mi).year
              ∧ m < (normDaysF f y m d h mi).month)) := by
  induction f generalizing y m d with
  | zero => exact Or.inl rfl
  | succ f ih =>
    rw [normDaysF]
    split
    · exact Or.inl rfl
    · split
      · rename_i h12
        rcases ih (y + 1) 1 (d - 31) with h | h | h
        · rw [h]; right; left; exact lt_add_one y
        · right; left; omega
        · right; left; omega
      · rcases ih y (m + 1) (d - daysInMonth y m) with h | h | h
        · rw [h]; right; right; exact ⟨rfl, Nat.lt_succ_self m⟩
        · right; left; omega
        · right
          rcases h with ⟨hy, hm⟩
          exact Or.inr ⟨hy, by omega⟩

theorem dtLt_of_normDaysF (f : Nat) (y : Int) (m d0 d h0 mi0 h mi : Nat)
    (hd : d0 < d) :
    dtLt ⟨y, m, d0, h0, mi0⟩ (normDaysF f y m d h mi) := by
  rcases normDaysF_cases f y m d h mi with hc | hc | hc
  · rw [hc]
    right; right; left
    exact ⟨rfl, rfl, hd⟩
  · left; exact hc
  · right; left; exact hc

theorem addMinutes_lt (d : Dt) (n : Nat) (hn : 0 < n) (hv : Valid d) :
    dtLt d (addMinutes d n) := by
  obtain ⟨_, _, _, _, hh, hmi⟩ := hv
  show dtLt d (normDaysF (d.day + (d.hour + (d.minute + n) / 60) / 24)
    d.year d.month (d.day + (d.hour + (d.minute + n) / 60) / 24)
    ((d.hour + (d.minute + n) / 60) % 24) ((d.minute + n) % 60))
  by_cases hcarry : (d.hour + (d.minute + n) / 60) / 24 = 0
  · rw [hcarry, Nat.add_zero]
    rcases normDaysF_cases d.day d.year d.month d.day
        ((d.hour + (d.minute + n) / 60) % 24) ((d.minute + n) % 60)
      with hc | hc | hc
    · rw [hc]
      by_cases hc60 : (d.minute + n) / 60 = 0
      · right; right; right; right
        refine ⟨rfl, rfl, rfl, ?_, ?_⟩
        · show d.hour = (d.hour + (d.minute + n) / 60) % 24
          omega
        · show d.minute < (d.minute + n) % 60
          omega
      · right; right; right; left
        refine ⟨rfl, rfl, rfl, ?_⟩
        show d.hour < (d.hour + (d.minute + n) / 60) % 24
        omega
    · left; exact hc
    · right; left; exact hc
  · exact dtLt_of_normDaysF _ _ _ _ _ _ _ _ _ (by omega)

theorem addMinutes_valid (d : Dt) (n : Nat) (hd : Valid d) :
    Valid (addMinutes d n) := by
  obtain ⟨hm1, hm2, hd1, _, _, _⟩ := hd
  unfold addMinutes
  exact normDaysF_valid _ _ _ _ _ _ le_rfl hm1 hm2 (by omega)
    (Nat.mod_lt _ (by omega)) (Nat.mod_lt _ (by omega))

/-- The granularity names of `generate_date_range`. -/
inductive Increment where
  | month | week | day | hour4 | hour | min15 | min3
deriving DecidableEq, Repr

/-- One step of the `generate_date_range` loop body: the next candidate date
for the given increment, before the clamp `min(current_date, end_date)`.
For `month`, Python replaces the month (rolling the year after December) and
resets the day to 1, keeping hour and minute; every other increment adds a
fixed `timedelta`. -/
def advance : Increment → Dt → Dt
  | .month, d =>
    if d.month = 12 then ⟨d.year + 1, 1, 1, d.hour, d.minute⟩
    else ⟨d.year, d.month % 12 + 1, 1, d.hour, d.minute⟩
  | .week, d => addMinutes d (7 * 24 * 60)
  | .day, d => addMinutes d (24 * 60)
  | .hour4, d => addMinutes d (4 * 60)
  | .hour, d => addMinutes d 60
  | .min15, d => addMinutes d 15
  | .min3, d => addMinutes d 3

theorem valid_mk {y : Int} {m d h mi : Nat} (h1 : 1 ≤ m) (h2 : m ≤ 12)
    (h3 : 1 ≤ d) (h4 : d ≤ daysInMonth y m) (h5 : h < 24) (h6 : mi < 60) :
    Valid ⟨y, m, d, h, mi⟩ :=
  ⟨h1, h2, h3, h4, h5, h6⟩

theorem advance_lt (inc : Increment) (d : Dt) (hd : Valid d) :
    dtLt d (advance inc d) := by
  obtain ⟨hm1, hm2, _, _, hh, hmi⟩ := hd
  cases inc with
  | month =>
    show dtLt d (if d.month = 12 then _ else _)
    split
    · exact Or.inl (show d.year < d.year + 1 by omega)
    · rename_i h12
      exact Or.inr (Or.inl ⟨rfl, show d.month < d.month % 12 + 1 by omega⟩)
  | week => exact addMinutes_lt _ _ (by norm_num) ⟨hm1, hm2, by assumption, by assumption, hh, hmi⟩
  | day => exact addMinutes_lt _ _ (by norm_num) ⟨hm1, hm2, by assumption, by assumption, hh, hmi⟩
  | hour4 => exact addMinutes_lt _ _ (by norm_num) ⟨hm1, hm2, by assumption, by assumption, hh, hmi⟩
  | hour => exact addMinutes_lt _ _ (by norm_num) ⟨hm1, hm2, by assumption, by assumption, hh, hmi⟩
  | min15 => exact addMinutes_lt _ _ (by norm_num) ⟨hm1, hm2, by assumption, by assumption, hh, hmi⟩
  | min3 => exact addMinutes_lt _ _ (by norm_num) ⟨hm1, hm2, by assumption, by assumption, hh, hmi⟩

theorem advance_valid (inc : Increment) (d : Dt) (hd : Valid d) :
    Valid (advance inc d) := by
  obtain ⟨hm1, hm2, hd1, hd2, hh, hmi⟩ := hd
  cases inc with
  | month =>
    show Valid (if d.month = 12 then _ else _)
    split
    · exact valid_mk (by norm_num) (by norm_num) (by norm_num)
        (daysInMonth_pos _ _) hh hmi
    · rename_i h12
      exact valid_mk (by omega) (by omega) (by norm_num)
        (daysInMonth_pos _ _) hh hmi
  | week => exact addMinutes_valid _ _ ⟨hm1, hm2, hd1, hd2, hh, hmi⟩
  | day => exact addMinutes_valid _ _ ⟨hm1, hm2, hd1, hd2, hh, hmi⟩
  | hour4 => exact addMinutes_valid _ _ ⟨hm1, hm2, hd1, hd2, hh, hmi⟩
  | hour => exact addMinutes_valid _ _ ⟨hm1, hm2, hd1, hd2, hh, hmi⟩
  | min15 => exact addMinutes_valid _ _ ⟨hm1, hm2, hd1, hd2, hh, hmi⟩
  | min3 => exact addMinutes_valid _ _ ⟨hm1, hm2, hd1, hd2, hh, hmi⟩

theorem dtMin_valid {a b : Dt} (ha : Valid a) (hb : Valid b) :
    Valid (dtMin a b) := by
  unfold dtMin; split <;> assumption

/-- Fuelled body of `generate_date_range`: while `current_date < end_date`,
yield `current_date`, then step it by the increment and clamp with
`min(current_date, end_date)`.  The fuel only bounds the number of loop
iterations; `generate_date_range` supplies enough of it that, on valid
dates, the loop always runs to completion. -/
def genRangeF (inc : Increment) (e : Dt) : Nat → Dt → List Dt
  | 0, _ => []
  | f + 1, cur =>
    if dtLt cur e then cur :: genRangeF inc e f (dtMin (advance inc cur) e)
    else []

/-- `generate_date_range(start_date, end_date, increment)`: the list of dates
yielded by the generator. -/
def generate_date_range (s e : Dt) (inc : Increment) : List Dt :=
  genRangeF inc e ((rank e - rank s).toNat + 1) s

theorem dtMin_cases (a b : Dt) : dtMin a b = a ∨ dtMin a b = b := by
  unfold dtMin; split
  · exact Or.inr rfl
  · exact Or.inl rfl

theorem rank_next_bounds {cur e : Dt} (inc : Increment)
    (hc : Valid cur) (he : Valid e) (h : dtLt cur e) :
    rank cur < rank (dtMin (advance inc cur) e)
      ∧ rank (dtMin (advance inc cur) e) ≤ rank e := by
  have hav : Valid (advance inc cur) := advance_valid inc cur hc
  have hal : rank cur < rank (advance inc cur) :=
    rank_lt_of_dtLt hc hav (advance_lt inc cur hc)
  have hce : rank cur < rank e := rank_lt_of_dtLt hc he h
  unfold dtMin
  split
  · exact ⟨hce, le_rfl⟩
  · rename_i hno
    exact ⟨hal, rank_le_of_not_dtLt hav he hno⟩

theorem genRangeF_stable (inc : Increment) (e : Dt) (he : Valid e) :
    ∀ f₁ f₂ cur, Valid cur →
      (rank e - rank cur).toNat < f₁ → (rank e - rank cur).toNat < f₂ →
      genRangeF inc e f₁ cur = genRangeF inc e f₂ cur := by
  intro f₁
  induction f₁ with
  | zero => omega
  | succ f₁ ih =>
    intro f₂ cur hc h1 h2
    match f₂, h2 with
    | f₂ + 1, h2 =>
      rw [genRangeF, genRangeF]
      split
      · rename_i hlt
        have hb := rank_next_bounds inc hc he hlt
        have hcur' : Valid (dtMin (advance inc cur) e) :=
          dtMin_valid (advance_valid inc cur hc) he
        have := rank_lt_of_dtLt hc he hlt
        rw [ih f₂ _ hcur' (by omega) (by omega)]
      · rfl

theorem generate_date_range_unfold (s e : Dt) (inc : Increment)
    (hs : Valid s) (he : Valid e) :
    generate_date_range s e inc =
      if dtLt s e then
        s :: generate_date_range (dtMin (advance inc s) e) e inc
      else [] := by
  unfold generate_date_range
  rw [genRangeF]
  split
  · rename_i hlt
    have hb := rank_next_bounds inc hs he hlt
    have hs' : Valid (dtMin (advance inc s) e) :=
      dtMin_valid (advance_valid inc s hs) he
    have := rank_lt_of_dtLt hs he hlt
    rw [genRangeF_stable inc e he ((rank e - rank s).toNat)
      ((rank e - rank (dtMin (advance inc s) e)).toNat + 1)
      (dtMin (advance inc s) e) hs' (by omega) (by omega)]
  · rfl

/-- The sub-interval pairing of `recursive_call`: for each yielded date the
interval runs to the next yielded date, and for the last one to `end`. -/
def pairsWithEnd : List Dt → Dt → List (Dt × Dt)
  | [], _ => []
  | [a], e => [(a, e)]
  | a :: b :: rest, e => (a, b) :: pairsWithEnd (b :: rest) e

/-- The sub-intervals visited by one level of `recursive_call` over
`[s, e)`. -/
def subIntervals (s e : Dt) (inc : Increment) : List (Dt × Dt) :=
  pairsWithEnd (generate_date_range s e inc) e

theorem pairsWithEnd_singleton (a e : Dt) : pairsWithEnd [a] e = [(a, e)] := rfl

theorem pairsWithEnd_cons_cons (a b : Dt) (l : List Dt) (e : Dt) :
    pairsWithEnd (a :: b :: l) e = (a, b) :: pairsWithEnd (b :: l) e := rfl

theorem subIntervals_spec_aux (inc : Increment) (e : Dt) (he : Valid e) :
    ∀ n s, (rank e - rank s).toNat ≤ n → Valid s → dtLt s e →
      subIntervals s e inc ≠ []
        ∧ (subIntervals s e inc).head?.map Prod.fst = some s
        ∧ (subIntervals s e inc).getLast?.map Prod.snd = some e
        ∧ (∀ p ∈ subIntervals s e inc, dtLt p.1 p.2)
        ∧ List.Chain' (fun p q => p.2 = q.1) (subIntervals s e inc) := by
  intro n
  induction n with
  | zero =>
    intro s hn hs hlt
    have := rank_lt_of_dtLt hs he hlt
    omega
  | succ n ih =>
    intro s hn hs hlt
    have hv' : Valid (dtMin (advance inc s) e) :=
      dtMin_valid (advance_valid inc s hs) he
    have hb := rank_next_bounds inc hs he hlt
    have hse := rank_lt_of_dtLt hs he hlt
    unfold subIntervals
    rw [generate_date_range_unfold s e inc hs he, if_pos hlt]
    by_cases hlt' : dtLt (dtMin (advance inc s) e) e
    · obtain ⟨hne, hhead, hlast, hmem, hchain⟩ :=
        ih (dtMin (advance inc s) e) (by omega) hv' hlt'
      unfold subIntervals at hne hhead hlast hmem hchain
      rw [generate_date_range_unfold (dtMin (advance inc s) e) e inc hv' he,
        if_pos hlt'] at hne hhead hlast hmem hchain ⊢
      cases hq : pairsWithEnd
          (dtMin (advance inc s) e ::
            generate_date_range
              (dtMin (advance inc (dtMin (advance inc s) e)) e) e inc) e with
      | nil => exact absurd hq hne
      | cons p0 pt =>
        rw [hq] at hhead hlast hmem hchain
        have hp0 : p0.1 = dtMin (advance inc s) e := by
          simp only [List.head?, Option.map_some'] at hhead
          exact Option.some.inj hhead
        have hstep : dtLt s (dtMin (advance inc s) e) := by
          rcases dtMin_cases (advance inc s) e with h | h <;> rw [h]
          · exact advance_lt inc s hs
          · exact hlt
        rw [pairsWithEnd_cons_cons, hq]
        refine ⟨List.cons_ne_nil _ _, rfl, ?_, ?_, ?_⟩
        · rw [List.getLast?_cons_cons]
          exact hlast
        · intro p hp
          rcases List.mem_cons.mp hp with h | h
          · rw [h]; exact hstep
          · exact hmem p h
        · rw [List.chain'_cons]
          exact ⟨hp0.symm, hchain⟩
    · have hmin_le : ¬ dtLt e (dtMin (advance inc s) e) := by
        unfold dtMin
        split
        · exact dtLt_irrefl e
        · assumption
      have heq : dtMin (advance inc s) e = e := by
        rcases dtLt_total (dtMin (advance inc s) e) e with h | h | h
        · exact absurd h hlt'
        · exact h
        · exact absurd h hmin_le
      rw [generate_date_range_unfold (dtMin (advance inc s) e) e inc hv' he,
        if_neg hlt', pairsWithEnd_singleton]
      refine ⟨List.cons_ne_nil _ _, rfl, rfl, ?_, ?_⟩
      · intro p hp
        rcases List.mem_cons.mp hp with h | h
        · rw [h]; exact hlt
        · simp at h
      · exact List.chain'_singleton _

/-- C2: for every interval `[start, end)` with `start < end` and every
granularity, the ordered sub-intervals that `recursive_call` forms from
adjacent boundaries of `generate_date_range` are a partition of
`[start, end)`: the pair list is non-empty, each pair is a non-empty
interval, the first starts at `start`, adjacent pairs are contiguous, and
the last ends exactly at `end` (the final boundary is clamped to `end`). -/
theorem C2_date_range_partition (s e : Dt) (inc : Increment)
    (hs : Valid s) (he : Valid e) (hlt : dtLt s e) :
    subIntervals s e inc ≠ []
      ∧ (subIntervals s e inc).head?.map Prod.fst = some s
      ∧ (subIntervals s e inc).getLast?.map Prod.snd = some e
      ∧ (∀ p ∈ subIntervals s e inc, dtLt p.1 p.2)
      ∧ List.Chain' (fun p q => p.2 = q.1) (subIntervals s e inc) :=
  subIntervals_spec_aux inc e he ((rank e - rank s).toNat) s le_rfl hs hlt

/-- 2020-01-01 00:00. -/
def d20200101 : Dt := ⟨2020, 1, 1, 0, 0⟩
/-- 2020-02-01 00:00. -/
def d20200201 : Dt := ⟨2020, 2, 1, 0, 0⟩
/-- 2020-03-01 00:00. -/
def d20200301 : Dt := ⟨2020, 3, 1, 0, 0⟩

/-- C2 witness: the partition theorem applies to the concrete interval
2020-01-01 .. 2020-03-01 at month granularity. -/
theorem C2_date_range_partition_witness :
    (Valid d20200101 ∧ Valid d20200301 ∧ dtLt d20200101 d20200301)
      ∧ (subIntervals d20200101 d20200301 .month ≠ []
          ∧ (subIntervals d20200101 d20200301 .month).head?.map Prod.fst
              = some d20200101
          ∧ (subIntervals d20200101 d20200301 .month).getLast?.map Prod.snd
              = some d20200301
          ∧ (∀ p ∈ subIntervals d20200101 d20200301 .month, dtLt p.1 p.2)
          ∧ List.Chain' (fun p q => p.2 = q.1)
              (subIntervals d20200101 d20200301 .month)) :=
  ⟨by decide, C2_date_range_partition d20200101 d20200301 .month
    (by decide) (by decide) (by decide)⟩

/-- The JSON payload of one bill-listing call: the `bills` array together
with the total-count indicator the remote API reports (`R` is the opaque
type of one bill row). -/
structure ApiResponse (R : Type) where
  bills : List R
  count : Nat
deriving DecidableEq

/-- `congress_api_call`: issue one ranged query and keep
`bill_pull.get('bills', [])` as a data frame (the response's count
indicator is dropped; the query-range columns added to a non-empty frame do
not change the row list).  `api` is the remote collaborator, applied to the
range and the `limit` query parameter. -/
def congress_api_call {R : Type} (api : Dt → Dt → Nat → ApiResponse R)
    (s e : Dt) (limit : Nat) : List R :=
  (api s e limit).bills

/-- `granularity_levels = ['month', 'week', 'day', '4hour', 'hour', '15min',
'3min']`. -/
def granularity_levels : List Increment :=
  [.month, .week, .day, .hour4, .hour, .min15, .min3]

/-- One call event: the granularity index of the caller and the queried
range. -/
abbrev CallEv := Nat × Dt × Dt

/-- `recursive_call(start, end, granularity_index)`: walk the sub-intervals
of the current granularity in boundary order; fetch each one; if the fetched
frame has at least `response_limit` rows and a finer granularity exists,
recurse one level finer over that sub-interval and splice the finer rows in
place of the fetched ones, otherwise keep the fetched rows.  Besides the
concatenated rows, the model also returns the log of every
`congress_api_call` made, tagged with the granularity index that issued it.
The fuel only bounds the drill-down depth; depth is at most
`granularity_levels.length`, so `adaptive_api_call` below never exhausts
it. -/
def recursive_call {R : Type} (api : Dt → Dt → Nat → ApiResponse R)
    (L : Nat) : Nat → Nat → Dt → Dt → List R × List CallEv
  | 0, _, _, _ => ([], [])
  | fuel + 1, g, s, e =>
    (subIntervals s e (granularity_levels.getD g .month)).foldl
      (fun acc p =>
        let data := congress_api_call api p.1 p.2 L
        if L ≤ data.length ∧ g < granularity_levels.length - 1 then
          let finer := recursive_call api L fuel (g + 1) p.1 p.2
          (acc.1 ++ finer.1, acc.2 ++ (g, p.1, p.2) :: finer.2)
        else
          (acc.1 ++ data, acc.2 ++ [(g, p.1, p.2)]))
      ([], [])

/-- `adaptive_api_call(start_date, end_date)`: run `recursive_call` from the
coarsest granularity; the result rows are the harvested frame. -/
def adaptive_api_call {R : Type} (api : Dt → Dt → Nat → ApiResponse R)
    (L : Nat) (s e : Dt) : List R :=
  (recursive_call api L granularity_levels.length 0 s e).1

/-- The body of the `recursive_call` loop for a single sub-interval `p`:
the rows contributed for `p` and the call events it generates (the ranged
fetch itself, then, on drill-down, everything the finer recursion calls). -/
def processPair {R : Type} (api : Dt → Dt → Nat → ApiResponse R)
    (L fuel g : Nat) (p : Dt × Dt) : List R × List CallEv :=
  let data := congress_api_call api p.1 p.2 L
  if L ≤ data.length ∧ g < granularity_levels.length - 1 then
    let finer := recursive_call api L fuel (g + 1) p.1 p.2
    (finer.1, (g, p.1, p.2) :: finer.2)
  else
    (data, [(g, p.1, p.2)])

theorem recursive_call_foldl {R : Type} (api : Dt → Dt → Nat → ApiResponse R)
    (L fuel g : Nat) (pairs : List (Dt × Dt)) (acc : List R × List CallEv) :
    pairs.foldl
      (fun acc p =>
        let data := congress_api_call api p.1 p.2 L
        if L ≤ data.length ∧ g < granularity_levels.length - 1 then
          let finer := recursive_call api L fuel (g + 1) p.1 p.2
          (acc.1 ++ finer.1, acc.2 ++ (g, p.1, p.2) :: finer.2)
        else
          (acc.1 ++ data, acc.2 ++ [(g, p.1, p.2)]))
      acc
    = (acc.1 ++ catMap (fun p => (processPair api L fuel g p).1) pairs,
        acc.2 ++ catMap (fun p => (processPair api L fuel g p).2) pairs) := by
  induction pairs generalizing acc with
  | nil => simp
  | cons p pairs ih =>
    rw [List.foldl_cons, ih]
    unfold processPair
    dsimp only
    split
    · rename_i hcond; simp [hcond]
    · rename_i hcond; simp [hcond]

/-- `recursive_call` is the boundary-ordered concatenation of the per-pair
contributions. -/
theorem recursive_call_eq {R : Type} (api : Dt → Dt → Nat → ApiResponse R)
    (L fuel g : Nat) (s e : Dt) :
    recursive_call api L (fuel + 1) g s e
      = (catMap (fun p => (processPair api L fuel g p).1)
            (subIntervals s e (granularity_levels.getD g .month)),
          catMap (fun p => (processPair api L fuel g p).2)
            (subIntervals s e (granularity_levels.getD g .month))) := by
  rw [recursive_call, recursive_call_foldl]
  simp

theorem catMap_congr {f g : α → List β} :
    ∀ {l : List α}, (∀ a ∈ l, f a = g a) → catMap f l = catMap g l
  | [], _ => rfl
  | a :: l, h => by
    rw [catMap_cons, catMap_cons, h a (List.mem_cons_self a l),
      catMap_congr (fun x hx => h x (List.mem_cons_of_mem a hx))]

theorem processPair_log_head {R : Type} (api : Dt → Dt → Nat → ApiResponse R)
    (L fuel g : Nat) (p : Dt × Dt) :
    ∃ t, (processPair api L fuel g p).2 = (g, p.1, p.2) :: t := by
  unfold processPair
  dsimp only
  split
  · exact ⟨_, rfl⟩
  · exact ⟨[], rfl⟩

/-- Every run of `recursive_call` over a non-empty valid interval issues at
least one ranged fetch at its own granularity index. -/
theorem recursive_call_log_mem {R : Type} (api : Dt → Dt → Nat → ApiResponse R)
    (L fuel g : Nat) (s e : Dt) (hfuel : 1 ≤ fuel)
    (hs : Valid s) (he : Valid e) (hlt : dtLt s e) :
    ∃ x y, (g, x, y) ∈ (recursive_call api L fuel g s e).2 := by
  match fuel, hfuel with
  | fuel + 1, _ =>
    rw [recursive_call_eq]
    obtain ⟨hne, _, _, _, _⟩ :=
      subIntervals_spec_aux (granularity_levels.getD g .month) e he
        ((rank e - rank s).toNat) s le_rfl hs hlt
    cases hq : subIntervals s e (granularity_levels.getD g .month) with
    | nil => exact absurd hq hne
    | cons p rest =>
      obtain ⟨t, ht⟩ := processPair_log_head api L fuel g p
      refine ⟨p.1, p.2, ?_⟩
      dsimp only
      rw [catMap_cons, ht]
      exact List.mem_append_left _ (List.mem_cons_self _ _)

/-- Oracle refuting C1 as stated: every ranged fetch reports a count
indicator of 300 but returns an empty frame. -/
def apiC1 : Dt → Dt → Nat → ApiResponse Nat := fun _ _ _ => ⟨[], 300⟩

/-- C1 counterexample: for the sub-interval 2020-01-01 .. 2020-02-01 at the
coarsest granularity with `L = 250`, the response's count indicator is 300
(at least `L`) and a finer granularity exists, yet no finer-granularity call
is issued, because the code tests `len(data) >= response_limit` on the
returned frame and the frame is empty.  The claimed equivalence is false at
this input. -/
theorem C1_counterexample :
    ¬ ((∃ c ∈ (processPair apiC1 250 6 0 (d20200101, d20200201)).2,
          c.1 = 0 + 1)
        ↔ (250 ≤ (apiC1 d20200101 d20200201 250).count
            ∧ 0 < granularity_levels.length - 1)) := by
  decide

/-- C1 (amended): for every sub-interval `(a, b)` visited at granularity
index `g`, a finer-granularity recursive call is issued if and only if the
ranged fetch returns at least `L` rows (`len(data) >= response_limit`) and a
strictly finer granularity exists; the response's count indicator plays no
role. -/
theorem C1_drilldown_iff {R : Type} (api : Dt → Dt → Nat → ApiResponse R)
    (L fuel g : Nat) (a b : Dt) (ha : Valid a) (hb : Valid b)
    (hab : dtLt a b) (hfuel : 1 ≤ fuel) :
    (∃ c ∈ (processPair api L fuel g (a, b)).2, c.1 = g + 1)
      ↔ (L ≤ (congress_api_call api a b L).length
          ∧ g < granularity_levels.length - 1) := by
  constructor
  · rintro ⟨c, hc, hcg⟩
    by_contra hcond
    unfold processPair at hc
    rw [if_neg hcond] at hc
    rcases List.mem_singleton.mp hc with rfl
    exact absurd hcg (by omega)
  · intro hcond
    obtain ⟨x, y, hxy⟩ :=
      recursive_call_log_mem api L fuel (g + 1) a b hfuel ha hb hab
    refine ⟨(g + 1, x, y), ?_, rfl⟩
    unfold processPair
    rw [if_pos hcond]
    exact List.mem_cons_of_mem _ hxy

/-- Oracle for the C1 witness: every ranged fetch returns a frame of exactly
250 rows. -/
def apiC1w : Dt → Dt → Nat → ApiResponse Nat :=
  fun _ _ _ => ⟨List.range 250, 300⟩

/-- C1 witness: the amended equivalence applies to the concrete interval
2020-01-01 .. 2020-02-01 at granularity index 0. -/
theorem C1_drilldown_iff_witness :
    (Valid d20200101 ∧ Valid d20200201 ∧ dtLt d20200101 d20200201
        ∧ 1 ≤ 6)
      ∧ ((∃ c ∈ (processPair apiC1w 250 6 0 (d20200101, d20200201)).2,
            c.1 = 0 + 1)
          ↔ (250 ≤ (congress_api_call apiC1w d20200101 d20200201 250).length
              ∧ 0 < granularity_levels.length - 1)) :=
  ⟨by decide, C1_drilldown_iff apiC1w 250 6 0 d20200101 d20200201
    (by decide) (by decide) (by decide) (by decide)⟩

/-- Oracle refuting C3 as stated: every ranged fetch reports count 300 but
returns the three rows `[7, 8, 9]`. -/
def apiC3 : Dt → Dt → Nat → ApiResponse Nat := fun _ _ _ => ⟨[7, 8, 9], 300⟩

/-- C3 counterexample: over 2020-01-01 .. 2020-02-01 with `L = 250`, the
fetch reports a count indicator of 300 (at least `L`) and a finer
granularity exists, yet the coarse call's own records `[7, 8, 9]` are kept
as the whole result instead of being excluded, because the code keys the
splice on `len(data)`, which is 3 here. -/
theorem C3_counterexample :
    (250 ≤ (apiC3 d20200101 d20200201 250).count
        ∧ 0 < granularity_levels.length - 1)
      ∧ (recursive_call apiC3 250 7 0 d20200101 d20200201).1
          = congress_api_call apiC3 d20200101 d20200201 250
      ∧ congress_api_call apiC3 d20200101 d20200201 250 = [7, 8, 9] := by
  decide

/-- 2020-01-08 00:00. -/
def d20200108 : Dt := ⟨2020, 1, 8, 0, 0⟩
/-- 2020-01-15 00:00. -/
def d20200115 : Dt := ⟨2020, 1, 15, 0, 0⟩
/-- 2020-01-22 00:00. -/
def d20200122 : Dt := ⟨2020, 1, 22, 0, 0⟩
/-- 2020-01-29 00:00. -/
def d20200129 : Dt := ⟨2020, 1, 29, 0, 0⟩

/-- The 40 February rows of the C3 end-to-end example. -/
def febRecs : List Nat := (List.range 40).map (fun i => 4000 + i)

/-- Oracle for the C3 end-to-end example: the January monthly call returns a
truncated frame of 250 rows (count indicator 300), the February call returns
40 rows, and the five weekly calls inside January return one identifiable
row each. -/
def apiC3ex : Dt → Dt → Nat → ApiResponse Nat := fun s e _ =>
  if s = d20200101 ∧ e = d20200201 then ⟨List.range 250, 300⟩
  else if s = d20200201 then ⟨febRecs, 40⟩
  else if s = d20200101 then ⟨[5001], 1⟩
  else if s = d20200108 then ⟨[5002], 1⟩
  else if s = d20200115 then ⟨[5003], 1⟩
  else if s = d20200122 then ⟨[5004], 1⟩
  else if s = d20200129 then ⟨[5005], 1⟩
  else ⟨[], 0⟩

set_option maxRecDepth 8000 in
set_option maxHeartbeats 1600000 in
/-- C3 (amended): whenever a sub-interval's fetch returns at least `L` rows
and a finer granularity exists, the coarse call's own rows are excluded
entirely and the finer recursive result is spliced in their place, in
boundary order; and in the concrete two-month scenario (January's monthly
frame truncated at `L = 250` rows with count 300, February returning 40
rows), the result is January's weekly-drilled rows followed by February's 40
rows, in that order. -/
theorem C3_drill_splices_in_place :
    (∀ (R : Type) (api : Dt → Dt → Nat → ApiResponse R) (L fuel g : Nat)
        (s e : Dt),
      (recursive_call api L (fuel + 1) g s e).1
        = catMap (fun p =>
            if L ≤ (congress_api_call api p.1 p.2 L).length
                ∧ g < granularity_levels.length - 1 then
              (recursive_call api L fuel (g + 1) p.1 p.2).1
            else congress_api_call api p.1 p.2 L)
          (subIntervals s e (granularity_levels.getD g .month)))
    ∧ adaptive_api_call apiC3ex 250 d20200101 d20200301
        = [5001, 5002, 5003, 5004, 5005] ++ febRecs := by
  constructor
  · intro R api L fuel g s e
    rw [recursive_call_eq]
    dsimp only
    refine catMap_congr (fun p _ => ?_)
    unfold processPair
    dsimp only
    split
    · rfl
    · rfl
  · decide

end Adaptive

namespace Filler

/-- The raw outcome of one HTTP attempt in `Bill_Info_API_Filler.py`: a
completed response with a status and (for 200) a parsed JSON body of opaque
type `P`, or an exception raised during the request. -/
inductive NetResp (P : Type) where
  | http (status : Nat) (payload : P)
  | exn
deriving DecidableEq

/-- `shared_state['retry_statuses']`, set to `{429}` by `process_batches`. -/
def retry_statuses : List Int := [429]

/-- `fetch_data`: status 200 yields `(data, 200)`; any other status yields
`(None, status)`; an exception yields `(None, -1)`. -/
def fetch_data {P : Type} : NetResp P → Option P × Int
  | .http status payload =>
    if status = 200 then (some payload, (status : Int)) else (none, (status : Int))
  | .exn => (none, -1)

/-- `get_api_key`: take the key at the front of the group's queue and
immediately put it back at the rear.  (The queue is never empty when this is
called: the attempt loop runs once per key currently in the queue.) -/
def get_api_key : List String → String × List String
  | [] => ("", [])
  | k :: ks => (k, ks ++ [k])

/-- The observable state threaded through one `fetch_endpoint_data` call:
the endpoint group's key queue, the index of the next simulated network
response, the shared error counter, and the log of backoff sleeps. -/
structure FetchSt where
  queue : List String
  netIdx : Nat
  errorCount : Nat
  sleeps : List Nat
deriving DecidableEq, Repr

/-- Result of the `for _ in range(api_keys_in_group)` attempt loop: either a
200 response returned on the spot, or fall-through to the retry bookkeeping
with the final `retry_needed` flag and the Python local `data`
(`none` = still unbound). -/
inductive RoundOut (P : Type) where
  | success (payload : P) (st : FetchSt)
  | fail (st : FetchSt) (retryNeeded : Bool) (dataVar : Option (Option P))
deriving DecidableEq

/-- The attempt loop of `fetch_endpoint_data`: one attempt per key counted
at round start.  Each attempt borrows (and re-queues) a key, consumes the
next simulated response, and then: a retry status rotates to the next key
after bumping the error counter; any other `None` data bumps the error
counter and breaks out of the loop; a 200 response returns immediately. -/
def attemptRound {P : Type} (net : Nat → NetResp P) :
    Nat → FetchSt → Bool → Option (Option P) → RoundOut P
  | 0, st, rn, dv => .fail st rn dv
  | n + 1, st, rn, dv =>
    let kq := get_api_key st.queue
    let ds := fetch_data (net st.netIdx)
    let st' : FetchSt :=
      { queue := kq.2, netIdx := st.netIdx + 1,
        errorCount := st.errorCount, sleeps := st.sleeps }
    if ds.2 ∈ retry_statuses then
      attemptRound net n { st' with errorCount := st'.errorCount + 1 }
        true (some ds.1)
    else
      match ds.1 with
      | none => .fail { st' with errorCount := st'.errorCount + 1 } rn (some none)
      | some p => .success p st'

/-- The value of `return endpoint_name, data` (`ok`), or the `NameError`
raised when the loop never assigned `data`. -/
inductive FetchResult (P : Type) where
  | ok (dataVar : Option P) (st : FetchSt)
  | nameError (st : FetchSt)
deriving DecidableEq

/-- The final `return endpoint_name, data` of `fetch_endpoint_data`. -/
def finalReturn {P : Type} : Option (Option P) → FetchSt → FetchResult P
  | none, st => .nameError st
  | some d, st => .ok d st

/-- The `while retry_count < max_retries` loop of `fetch_endpoint_data`.
After a round in which at least one attempt was rate-limited and no attempt
succeeded, the retry counter is bumped and, if rounds remain, the controller
sleeps `backoff_factor * retry_count` and starts the next round; otherwise
the error counter is bumped once more and the loop ends.  A round with no
rate-limited attempt ends the loop at once.  The fuel starts at
`maxRetries`, which bounds the number of rounds. -/
def fetchLoop {P : Type} (net : Nat → NetResp P) (maxRetries backoff : Nat) :
    Nat → Nat → FetchSt → Option (Option P) → FetchResult P
  | 0, _, st, dv => finalReturn dv st
  | fuel + 1, rc, st, dv =>
    if rc < maxRetries then
      match attemptRound net st.queue.length st false dv with
      | .success p st' => .ok (some p) st'
      | .fail st' rn dv' =>
        if rn then
          if rc + 1 < maxRetries then
            fetchLoop net maxRetries backoff fuel (rc + 1)
              { st' with sleeps := st'.sleeps ++ [backoff * (rc + 1)] } dv'
          else
            finalReturn dv' { st' with errorCount := st'.errorCount + 1 }
        else finalReturn dv' st'
    else finalReturn dv st

/-- `fetch_endpoint_data` for one endpoint, driven by the simulated network
`net` (the `i`-th attempt anywhere in the call consumes response `net i`). -/
def fetch_endpoint_data {P : Type} (net : Nat → NetResp P)
    (maxRetries backoff : Nat) (keys : List String) : FetchResult P :=
  fetchLoop net maxRetries backoff maxRetries 0 ⟨keys, 0, 0, []⟩ none

/-- `load_api_key_queues`: build, for each group of the parsed JSON mapping,
a queue holding that group's keys in order (`put_nowait` appends at the
rear).  No emptiness check is performed on any group. -/
def load_api_key_queues (cfg : List (String × List String)) :
    List (String × List String) :=
  cfg.map (fun g => (g.1, g.2.foldl (fun q k => q ++ [k]) []))

/-- One full rotation step of a key queue, as performed by `get_api_key`. -/
def rot1 (q : List String) : List String := (get_api_key q).2

/-- `n` successive `get_api_key` borrows: the keys handed out in order, and
the final queue. -/
def borrowSeq : Nat → List String → List String × List String
  | 0, q => ([], q)
  | n + 1, q =>
    let kq := get_api_key q
    let r := borrowSeq n kq.2
    (kq.1 :: r.1, r.2)

/-- A primitive queue operation: `await queue.get()` or
`await queue.put(k)`. -/
inductive PoolOp where
  | get
  | put (k : String)
deriving DecidableEq

/-- A credential group's state under interleaved borrows and returns: the
keys still queued and the multiset of keys currently borrowed but not yet
returned. -/
structure PoolSt where
  queue : List String
  outstanding : Multiset String
deriving DecidableEq

/-- One queue operation under the code's discipline: `get` removes the front
key (suspending, hence no transition, on an empty queue); `put k` re-queues
a key at the rear, and only a key that is actually outstanding is ever put
back. -/
def poolStep (st : PoolSt) : PoolOp → Option PoolSt
  | .get =>
    match st.queue with
    | [] => none
    | k :: ks => some ⟨ks, k ::ₘ st.outstanding⟩
  | .put k =>
    if k ∈ st.outstanding then some ⟨st.queue ++ [k], st.outstanding.erase k⟩
    else none

/-- Run a sequence of queue operations. -/
def poolRun : PoolSt → List PoolOp → Option PoolSt
  | st, [] => some st
  | st, op :: ops => (poolStep st op).bind (fun st' => poolRun st' ops)

theorem borrowSeq_take_drop :
    ∀ (n : Nat) (q : List String), n ≤ q.length →
      borrowSeq n q = (q.take n, q.drop n ++ q.take n) := by
  intro n
  induction n with
  | zero => intro q _; simp [borrowSeq]
  | succ n ih =>
    intro q hn
    match q, hn with
    | k :: t, hn =>
      have hnt : n ≤ t.length := by simpa using hn
      rw [borrowSeq]
      show (k :: (borrowSeq n (t ++ [k])).1, (borrowSeq n (t ++ [k])).2) = _
      rw [ih (t ++ [k]) (by simp; omega)]
      simp [List.take_append_of_le_length hnt,
        List.drop_append_of_le_length hnt]

theorem borrowSeq_perm :
    ∀ (n : Nat) (q : List String), (borrowSeq n q).2.Perm q := by
  intro n
  induction n with
  | zero => intro q; simp [borrowSeq]
  | succ n ih =>
    intro q
    cases q with
    | nil =>
      rw [borrowSeq]
      exact ih []
    | cons k t =>
      rw [borrowSeq]
      show (borrowSeq n (t ++ [k])).2.Perm (k :: t)
      exact (ih (t ++ [k])).trans (List.perm_append_singleton k t)

theorem poolRun_total :
    ∀ (ops : List PoolOp) (st st' : PoolSt), poolRun st ops = some st' →
      (↑st'.queue + st'.outstanding : Multiset String)
        = ↑st.queue + st.outstanding := by
  intro ops
  induction ops with
  | nil =>
    intro st st' h
    cases h
    rfl
  | cons op ops ih =>
    intro st st' h
    rw [poolRun] at h
    cases hstep : poolStep st op with
    | none => rw [hstep] at h; cases h
    | some st1 =>
      rw [hstep, Option.some_bind] at h
      rw [ih st1 st' h]
      cases op with
      | get =>
        rw [poolStep] at hstep
        cases hq : st.queue with
        | nil => rw [hq] at hstep; cases hstep
        | cons k ks =>
          rw [hq] at hstep
          cases hstep
          show (↑ks + (k ::ₘ st.outstanding) : Multiset String)
            = ↑(k :: ks) + st.outstanding
          rw [← Multiset.cons_coe, Multiset.add_cons, Multiset.cons_add]
      | put k =>
        rw [poolStep] at hstep
        split at hstep
        · rename_i hk
          cases hstep
          show (↑(st.queue ++ [k]) + st.outstanding.erase k : Multiset String)
            = ↑st.queue + st.outstanding
          rw [show (↑(st.queue ++ [k]) : Multiset String)
              = ↑st.queue + {k} from rfl,
            add_assoc, Multiset.singleton_add, Multiset.cons_erase hk]
        · cases hstep

/-- C6: the multiset of tokens of a credential group is invariant under any
sequence of borrow/return operations (no token is duplicated or dropped, and
with distinct tokens no two outstanding borrows ever hold the same token);
rotation is strict FIFO: `n` borrows hand out the first `n` keys in order
and leave the queue rotated by `n`, so a full cycle of `len(queue)` borrows
hands out every key exactly once and restores the queue. -/
theorem C6_pool_invariant :
    (∀ (ks : List String) (ops : List PoolOp) (st' : PoolSt),
        poolRun ⟨ks, 0⟩ ops = some st' →
          (↑st'.queue + st'.outstanding : Multiset String) = ↑ks
            ∧ (ks.Nodup → st'.outstanding.Nodup))
      ∧ (∀ (ks : List String) (n : Nat), (borrowSeq n ks).2.Perm ks)
      ∧ (∀ (ks : List String) (n : Nat), n ≤ ks.length →
          (borrowSeq n ks).1 = ks.take n
            ∧ (borrowSeq n ks).2 = ks.drop n ++ ks.take n)
      ∧ (∀ ks : List String,
          (borrowSeq ks.length ks).1 = ks ∧ (borrowSeq ks.length ks).2 = ks) := by
  refine ⟨?_, ?_, ?_, ?_⟩
  · intro ks ops st' h
    have htot := poolRun_total ops ⟨ks, 0⟩ st' h
    simp only [add_zero] at htot
    refine ⟨htot, ?_⟩
    intro hnd
    have hle : st'.outstanding ≤ ↑st'.queue + st'.outstanding :=
      Multiset.le_add_left _ _
    rw [htot] at hle
    exact Multiset.nodup_of_le hle (Multiset.coe_nodup.mpr hnd)
  · intro ks n
    exact borrowSeq_perm n ks
  · intro ks n hn
    rw [borrowSeq_take_drop n ks hn]
    exact ⟨rfl, rfl⟩
  · intro ks
    rw [borrowSeq_take_drop ks.length ks le_rfl]
    simp

/-- C6 witness: a concrete borrow/return/borrow sequence on the pool
`["a", "b"]` reaches the state (queue `["a"]`, outstanding `{b}`), and the
invariant theorem applies to it. -/
theorem C6_pool_invariant_witness :
    (poolRun ⟨["a", "b"], 0⟩ [.get, .put "a", .get]
        = some ⟨["a"], {"b"}⟩)
      ∧ ((↑(["a"] : List String) + ({"b"} : Multiset String) : Multiset String)
            = ↑(["a", "b"] : List String)
          ∧ ((["a", "b"] : List String).Nodup →
              ({"b"} : Multiset String).Nodup)) :=
  ⟨by decide, C6_pool_invariant.1 ["a", "b"] [.get, .put "a", .get]
    ⟨["a"], {"b"}⟩ (by decide)⟩

/-- A simulated response whose status is in `retry_statuses`. -/
def isRateLimited {P : Type} (r : NetResp P) : Prop :=
  (fetch_data r).2 ∈ retry_statuses

instance {P : Type} (r : NetResp P) : Decidable (isRateLimited r) := by
  unfold isRateLimited; exact inferInstance

theorem fetch_data_none_of_rate {P : Type} (r : NetResp P)
    (h : isRateLimited r) : (fetch_data r).1 = none := by
  cases r with
  | http status payload =>
    by_cases h200 : status = 200
    · subst h200
      unfold isRateLimited fetch_data retry_statuses at h
      simp at h
    · simp [fetch_data, h200]
  | exn => rfl

theorem borrowSeq_succ_queue (n : Nat) (q : List String) :
    (borrowSeq (n + 1) q).2 = (borrowSeq n (get_api_key q).2).2 := rfl

/-- A round whose every attempt is rate-limited: each attempt bumps the
error counter by exactly one and rotates to the next key; the loop completes
with `retry_needed` set and `data = None`, having consumed one response per
key. -/
theorem attemptRound_allRate {P : Type} (net : Nat → NetResp P) :
    ∀ (n : Nat) (st : FetchSt) (rn : Bool) (dv : Option (Option P)),
      (∀ j < n, isRateLimited (net (st.netIdx + j))) →
      attemptRound net n st rn dv
        = .fail ⟨(borrowSeq n st.queue).2, st.netIdx + n,
            st.errorCount + n, st.sleeps⟩
          (if n = 0 then rn else true)
          (if n = 0 then dv else some none) := by
  intro n
  induction n with
  | zero =>
    intro st rn dv _
    simp [attemptRound, borrowSeq]
  | succ n ih =>
    intro st rn dv hall
    have h0 : isRateLimited (net st.netIdx) := by
      have := hall 0 (by omega)
      simpa using this
    have h0' : (fetch_data (net st.netIdx)).2 ∈ retry_statuses := h0
    have hnone : (fetch_data (net st.netIdx)).1 = none :=
      fetch_data_none_of_rate _ h0
    rw [attemptRound]
    dsimp only
    rw [if_pos h0', hnone]
    rw [ih ⟨(get_api_key st.queue).2, st.netIdx + 1, st.errorCount + 1,
        st.sleeps⟩
      true (some none)
      (by intro j hj
          have hr := hall (j + 1) (by omega)
          have e : st.netIdx + (j + 1) = st.netIdx + 1 + j := by omega
          rw [e] at hr
          exact hr)]
    have e1 : st.netIdx + 1 + n = st.netIdx + (n + 1) := by omega
    have e2 : st.errorCount + 1 + n = st.errorCount + (n + 1) := by omega
    show RoundOut.fail
        ⟨(borrowSeq n (get_api_key st.queue).2).2, st.netIdx + 1 + n,
          st.errorCount + 1 + n, st.sleeps⟩
        (if n = 0 then true else true) (if n = 0 then some none else some none)
      = _
    rw [e1, e2, ← borrowSeq_succ_queue]
    simp

/-- If the first `j` attempts of a round are rate-limited and attempt `j`
gets a 200 response, the round returns that payload immediately: one error
per rate-limited attempt, `j + 1` responses consumed, no further keys
tried. -/
theorem attemptRound_success {P : Type} (net : Nat → NetResp P) :
    ∀ (j : Nat) (n : Nat) (st : FetchSt) (rn : Bool) (dv : Option (Option P))
      (p : P), j < n →
      (∀ i < j, isRateLimited (net (st.netIdx + i))) →
      net (st.netIdx + j) = .http 200 p →
      attemptRound net n st rn dv
        = .success p ⟨(borrowSeq (j + 1) st.queue).2, st.netIdx + j + 1,
            st.errorCount + j, st.sleeps⟩ := by
  intro j
  induction j with
  | zero =>
    intro n st rn dv p hn hrate h200
    match n, hn with
    | n + 1, _ =>
      rw [Nat.add_zero] at h200
      rw [attemptRound]
      dsimp only
      rw [h200]
      have hds : fetch_data (NetResp.http 200 p) = (some p, (200 : Int)) := by
        simp [fetch_data]
      rw [hds]
      rw [if_neg (by simp [retry_statuses])]
      rfl
  | succ j ih =>
    intro n st rn dv p hn hrate h200
    match n, hn with
    | n + 1, hn =>
      have h0 : isRateLimited (net st.netIdx) := by
        have := hrate 0 (by omega)
        simpa using this
      have h0' : (fetch_data (net st.netIdx)).2 ∈ retry_statuses := h0
      have hnone : (fetch_data (net st.netIdx)).1 = none :=
        fetch_data_none_of_rate _ h0
      rw [attemptRound]
      dsimp only
      rw [if_pos h0', hnone]
      rw [ih n ⟨(get_api_key st.queue).2, st.netIdx + 1, st.errorCount + 1,
          st.sleeps⟩
        true (some none) p (by omega)
        (by intro i hi
            have hr := hrate (i + 1) (by omega)
            have e : st.netIdx + (i + 1) = st.netIdx + 1 + i := by omega
            rw [e] at hr
            exact hr)
        (by
          have e : st.netIdx + (j + 1) = st.netIdx + 1 + j := by omega
          rw [e] at h200
          exact h200)]
      have e1 : st.netIdx + 1 + j + 1 = st.netIdx + (j + 1) + 1 := by omega
      have e2 : st.errorCount + 1 + j = st.errorCount + (j + 1) := by omega
      rw [e1, e2, ← borrowSeq_succ_queue]

/-- If the first `j` attempts of a round are rate-limited and attempt `j`
fails with a non-rate-limit outcome (`data is None` with a status outside
`retry_statuses`), the error counter is bumped once more and the round ends
at once with `data = None`: the remaining keys are not tried. -/
theorem attemptRound_failBreak {P : Type} (net : Nat → NetResp P) :
    ∀ (j : Nat) (n : Nat) (st : FetchSt) (rn : Bool) (dv : Option (Option P)),
      j < n →
      (∀ i < j, isRateLimited (net (st.netIdx + i))) →
      ¬ isRateLimited (net (st.netIdx + j)) →
      (fetch_data (net (st.netIdx + j))).1 = none →
      attemptRound net n st rn dv
        = .fail ⟨(borrowSeq (j + 1) st.queue).2, st.netIdx + j + 1,
            st.errorCount + j + 1, st.sleeps⟩
          (if j = 0 then rn else true) (some none) := by
  intro j
  induction j with
  | zero =>
    intro n st rn dv hn hrate hnr hnone
    match n, hn with
    | n + 1, _ =>
      rw [Nat.add_zero] at hnr hnone
      have hnr' : ¬ ((fetch_data (net st.netIdx)).2 ∈ retry_statuses) := hnr
      rw [attemptRound]
      dsimp only
      rw [if_neg hnr', hnone]
      rfl
  | succ j ih =>
    intro n st rn dv hn hrate hnr hnone
    match n, hn with
    | n + 1, hn =>
      have h0 : isRateLimited (net st.netIdx) := by
        have := hrate 0 (by omega)
        simpa using this
      have h0' : (fetch_data (net st.netIdx)).2 ∈ retry_statuses := h0
      have h0none : (fetch_data (net st.netIdx)).1 = none :=
        fetch_data_none_of_rate _ h0
      rw [attemptRound]
      dsimp only
      rw [if_pos h0', h0none]
      have eshift : st.netIdx + (j + 1) = st.netIdx + 1 + j := by omega
      rw [ih n ⟨(get_api_key st.queue).2, st.netIdx + 1, st.errorCount + 1,
          st.sleeps⟩
        true (some none) (by omega)
        (by intro i hi
            have hr := hrate (i + 1) (by omega)
            have e : st.netIdx + (i + 1) = st.netIdx + 1 + i := by omega
            rw [e] at hr
            exact hr)
        (by rw [← eshift]; exact hnr)
        (by rw [← eshift]; exact hnone)]
      have e1 : st.netIdx + 1 + j + 1 = st.netIdx + (j + 1) + 1 := by omega
      have e2 : st.errorCount + 1 + j + 1 = st.errorCount + (j + 1) + 1 := by
        omega
      rw [e1, e2, ← borrowSeq_succ_queue]
      simp

theorem borrowSeq_full_cycle (q : List String) :
    (borrowSeq q.length q).2 = q := by
  rw [borrowSeq_take_drop q.length q le_rfl]
  simp

/-- Simulated responses `[429, 429, 200]`: the third attempt succeeds with
payload 99. -/
def net3 : Nat → NetResp Nat := fun i =>
  if i = 0 then .http 429 0 else if i = 1 then .http 429 0 else .http 200 99

/-- A network that always answers 201 with payload 77. -/
def net201 : Nat → NetResp Nat := fun _ => .http 201 77

/-- C4 counterexample: 201 is a 2xx status, yet a 201 response does not
short-circuit the retry structure with its payload: `fetch_data` treats only
200 as success, so the call ends with `data = None` and one error counted
instead of returning the payload. -/
theorem C4_counterexample :
    (200 ≤ 201 ∧ 201 < 300)
      ∧ fetch_endpoint_data net201 3 5 ["k1"]
          = .ok none ⟨["k1"], 1, 1, []⟩
      ∧ fetch_endpoint_data net201 3 5 ["k1"]
          ≠ .ok (some 77) ⟨["k1"], 1, 0, []⟩ := by
  decide

/-- C4 (amended): (i) a round in which every key is rate-limited makes one
attempt per key counted at round start, bumps the error counter once per
attempt, rotates through the whole queue (leaving it as it started), and —
when another round remains — sleeps `backoff * roundNumber` before it;
(ii) a 200 response short-circuits the whole retry structure and returns its
payload immediately, with one error per rate-limited attempt before it;
(iii) for simulated responses `[429, 429, 200]` across three keys in one
group, exactly one success is returned and the error counter rises by
exactly 2. -/
theorem C4_retry_round_behavior :
    (∀ (P : Type) (net : Nat → NetResp P) (maxRetries backoff fuel rc : Nat)
        (st : FetchSt) (dv : Option (Option P)),
      0 < st.queue.length →
      (∀ j < st.queue.length, isRateLimited (net (st.netIdx + j))) →
      rc < maxRetries → rc + 1 < maxRetries →
      fetchLoop net maxRetries backoff (fuel + 1) rc st dv
        = fetchLoop net maxRetries backoff fuel (rc + 1)
            ⟨st.queue, st.netIdx + st.queue.length,
              st.errorCount + st.queue.length,
              st.sleeps ++ [backoff * (rc + 1)]⟩ (some none))
    ∧ (∀ (P : Type) (net : Nat → NetResp P) (maxRetries backoff fuel rc j : Nat)
        (st : FetchSt) (dv : Option (Option P)) (p : P),
      j < st.queue.length →
      (∀ i < j, isRateLimited (net (st.netIdx + i))) →
      net (st.netIdx + j) = .http 200 p →
      rc < maxRetries →
      fetchLoop net maxRetries backoff (fuel + 1) rc st dv
        = .ok (some p) ⟨(borrowSeq (j + 1) st.queue).2, st.netIdx + j + 1,
            st.errorCount + j, st.sleeps⟩)
    ∧ fetch_endpoint_data net3 3 5 ["ka", "kb", "kc"]
        = .ok (some 99) ⟨["ka", "kb", "kc"], 3, 2, []⟩ := by
  refine ⟨?_, ?_, by decide⟩
  · intro P net maxRetries backoff fuel rc st dv hlen hall hrc hrc1
    rw [fetchLoop]
    rw [if_pos hrc]
    rw [attemptRound_allRate net st.queue.length st false dv hall]
    have hne : ¬ (st.queue.length = 0) := by omega
    rw [if_neg hne, if_neg hne]
    show (if true = true then _ else _) = _
    rw [if_pos rfl]
    rw [if_pos hrc1]
    rw [borrowSeq_full_cycle]
  · intro P net maxRetries backoff fuel rc j st dv p hj hrate h200 hrc
    rw [fetchLoop]
    rw [if_pos hrc]
    rw [attemptRound_success net j st.queue.length st false dv p hj hrate h200]

/-- C4 witness: part (ii) of the amended theorem applies to the concrete
`[429, 429, 200]` scenario with three keys, giving the short-circuited
success with exactly two errors counted. -/
theorem C4_retry_round_behavior_witness :
    ((2 < (["ka", "kb", "kc"] : List String).length
        ∧ (∀ i < 2, isRateLimited (net3 ((⟨["ka", "kb", "kc"], 0, 0, []⟩ :
              FetchSt).netIdx + i)))
        ∧ net3 ((⟨["ka", "kb", "kc"], 0, 0, []⟩ : FetchSt).netIdx + 2)
            = .http 200 99
        ∧ 0 < 3)
      ∧ fetchLoop net3 3 5 (2 + 1) 0 ⟨["ka", "kb", "kc"], 0, 0, []⟩ none
          = .ok (some 99) ⟨(borrowSeq (2 + 1) ["ka", "kb", "kc"]).2,
              0 + 2 + 1, 0 + 2, []⟩) :=
  ⟨by decide, C4_retry_round_behavior.2.1 Nat net3 3 5 2 0 2
    ⟨["ka", "kb", "kc"], 0, 0, []⟩ none 99 (by decide) (by decide)
    (by decide) (by decide)⟩

/-- A transport error on the first attempt, then a 200 with payload 55. -/
def netC5 : Nat → NetResp Nat := fun i =>
  if i = 0 then .exn else .http 200 55

/-- C5 counterexample: with two keys and responses
`[transport error, 200]`, the transport error ends the round (and the whole
call) immediately: only one response is ever consumed, the second key is
never tried, and the call returns `data = None` — the claimed recovery via
rotation within the round does not happen. -/
theorem C5_counterexample :
    fetch_data (netC5 1) = (some 55, 200)
      ∧ fetch_endpoint_data netC5 3 5 ["k1", "k2"]
          = .ok none ⟨["k2", "k1"], 1, 1, []⟩
      ∧ fetch_endpoint_data netC5 3 5 ["k1", "k2"]
          ≠ .ok (some 55) ⟨["k1", "k2"], 2, 1, []⟩ := by
  decide

/-- C5 (amended): a non-rate-limit failure (transport error or non-2xx,
non-429 status) increments the shared error counter and ends the round
immediately — the failing key is not retried and no further key is tried in
that round; if no rate-limit occurred earlier in the round, the whole retry
structure ends at once, returning `(endpoint_name, None)` with no backoff
sleep. -/
theorem C5_nonrate_failure_ends_round :
    (∀ (P : Type) (net : Nat → NetResp P) (j n : Nat) (st : FetchSt)
        (rn : Bool) (dv : Option (Option P)),
      j < n →
      (∀ i < j, isRateLimited (net (st.netIdx + i))) →
      ¬ isRateLimited (net (st.netIdx + j)) →
      (fetch_data (net (st.netIdx + j))).1 = none →
      attemptRound net n st rn dv
        = .fail ⟨(borrowSeq (j + 1) st.queue).2, st.netIdx + j + 1,
            st.errorCount + j + 1, st.sleeps⟩
          (if j = 0 then rn else true) (some none))
    ∧ (∀ (P : Type) (net : Nat → NetResp P) (maxRetries backoff fuel rc : Nat)
        (st : FetchSt) (dv : Option (Option P)),
      0 < st.queue.length →
      rc < maxRetries →
      ¬ isRateLimited (net st.netIdx) →
      (fetch_data (net st.netIdx)).1 = none →
      fetchLoop net maxRetries backoff (fuel + 1) rc st dv
        = .ok none ⟨(get_api_key st.queue).2, st.netIdx + 1,
            st.errorCount + 1, st.sleeps⟩) := by
  constructor
  · intro P net j n st rn dv hj hrate hnr hnone
    exact attemptRound_failBreak net j n st rn dv hj hrate hnr hnone
  · intro P net maxRetries backoff fuel rc st dv hlen hrc hnr hnone
    rw [fetchLoop]
    rw [if_pos hrc]
    rw [attemptRound_failBreak net 0 st.queue.length st false dv hlen
      (by intro i hi; omega)
      (by rw [Nat.add_zero]; exact hnr)
      (by rw [Nat.add_zero]; exact hnone)]
    show (if (if (0 : Nat) = 0 then false else true) = true then _ else _) = _
    rw [if_pos rfl]
    show (if false = true then _ else _) = _
    rw [if_neg (by simp)]
    show finalReturn (some none)
        ⟨(borrowSeq (0 + 1) st.queue).2, st.netIdx + 0 + 1,
          st.errorCount + 0 + 1, st.sleeps⟩ = _
    rw [Nat.add_zero, Nat.add_zero]
    rfl

/-- C5 witness: the amended theorem applies to the concrete scenario of
`C5_counterexample` (transport error on the first key of a two-key pool). -/
theorem C5_nonrate_failure_ends_round_witness :
    ((0 < (["k1", "k2"] : List String).length
        ∧ 0 < 3
        ∧ ¬ isRateLimited (netC5 ((⟨["k1", "k2"], 0, 0, []⟩ :
              FetchSt).netIdx))
        ∧ (fetch_data (netC5 ((⟨["k1", "k2"], 0, 0, []⟩ :
              FetchSt).netIdx))).1 = none)
      ∧ fetchLoop netC5 3 5 (2 + 1) 0 ⟨["k1", "k2"], 0, 0, []⟩ none
          = .ok none ⟨(get_api_key ["k1", "k2"]).2, 0 + 1, 0 + 1, []⟩) :=
  ⟨by decide, C5_nonrate_failure_ends_round.2 Nat netC5 3 5 2 0
    ⟨["k1", "k2"], 0, 0, []⟩ none (by decide) (by decide) (by decide)
    (by decide)⟩

theorem foldl_put_nowait (l : List String) :
    ∀ acc : List String, l.foldl (fun q k => q ++ [k]) acc = acc ++ l := by
  induction l with
  | nil => intro acc; simp
  | cons k l ih =>
    intro acc
    rw [List.foldl_cons, ih]
    simp

/-- A zero-token group is a `NameError` at the fetcher's final return. -/
def netAnyNat : Nat → NetResp Nat := fun _ => .exn

/-- C9 counterexample: the configuration with an empty `group_1` is accepted
by `load_api_key_queues` (an empty queue is built, no error is raised), and
a fetch against the empty group then fails at fetch time — zero attempts are
made (no response consumed, no error counted) and the final
`return endpoint_name, data` hits the unbound local `data` — rather than the
configuration being rejected at startup. -/
theorem C9_counterexample :
    load_api_key_queues [("group_1", [])] = [("group_1", [])]
      ∧ fetch_endpoint_data netAnyNat 3 5 [] = .nameError ⟨[], 0, 0, []⟩ := by
  decide

/-- C9 (amended): zero-token groups are not rejected at startup:
`load_api_key_queues` builds a queue per group holding exactly the
configured keys, with no emptiness check; a fetch against an empty group
makes no network attempt and fails with an unbound-local error at its final
return (caught per-record by the batch pipeline). -/
theorem C9_empty_group_not_rejected :
    (∀ cfg : List (String × List String), load_api_key_queues cfg = cfg)
      ∧ (∀ (P : Type) (net : Nat → NetResp P) (maxRetries backoff : Nat),
          fetch_endpoint_data net maxRetries backoff []
            = .nameError ⟨[], 0, 0, []⟩) := by
  constructor
  · intro cfg
    induction cfg with
    | nil => rfl
    | cons g cfg ih =>
      show (g.1, g.2.foldl (fun q k => q ++ [k]) [])
          :: load_api_key_queues cfg = g :: cfg
      rw [ih, foldl_put_nowait g.2 []]
      simp
  · intro P net maxRetries backoff
    cases maxRetries with
    | zero => rfl
    | succ m =>
      show fetchLoop net (m + 1) backoff (m + 1) 0 ⟨[], 0, 0, []⟩ none = _
      rw [fetchLoop]
      dsimp only
      rw [if_pos (Nat.succ_pos m)]
      rfl

/-- One cleaned input row of the enrichment pipeline: the identity triple
and the `index` column added by `load_and_index_bills` (the resumability
key). -/
structure Row where
  index : Nat
  congress : Int
  number : Int
  billType : String
deriving DecidableEq, Repr

/-- `split_into_batches(df, batch_size)`: the slices
`df[i : i + batch_size]` for `i in range(0, len(df), batch_size)`. -/
def split_into_batches {α : Type} (l : List α) (batchSize : Nat) :
    List (List α) :=
  (List.range' 0 ((l.length + batchSize - 1) / batchSize) batchSize).map
    (fun i => (l.drop i).take batchSize)

/-- Fuelled head-slice recursion equivalent to `split_into_batches` for a
positive batch size. -/
def splitRecF {α : Type} : Nat → List α → Nat → List (List α)
  | 0, _, _ => []
  | f + 1, l, bs =>
    if l.isEmpty then [] else l.take bs :: splitRecF f (l.drop bs) bs

theorem range'_shift (t : Nat) :
    ∀ (n s step : Nat),
      List.range' (t + s) n step = (List.range' s n step).map (t + ·) := by
  intro n
  induction n with
  | zero => intro s step; rfl
  | succ n ih =>
    intro s step
    rw [List.range', List.range', List.map_cons, Nat.add_assoc, ih]

theorem split_into_batches_eq_rec {α : Type} (bs : Nat) (hbs : 0 < bs) :
    ∀ (n : Nat) (l : List α), l.length ≤ n →
      split_into_batches l bs = splitRecF n l bs := by
  intro n
  induction n with
  | zero =>
    intro l hl
    have : l = [] := List.length_eq_zero.mp (by omega)
    subst this
    show (List.range' 0 ((0 + bs - 1) / bs) bs).map _ = []
    rw [Nat.div_eq_of_lt (by omega)]
    rfl
  | succ n ih =>
    intro l hl
    cases hle : l.isEmpty with
    | true =>
      have : l = [] := by
        cases l with
        | nil => rfl
        | cons a l => simp at hle
      subst this
      show (List.range' 0 ((0 + bs - 1) / bs) bs).map _ = splitRecF (n + 1) [] bs
      rw [Nat.div_eq_of_lt (by omega)]
      rw [splitRecF]
      simp
    | false =>
      have hlen : 0 < l.length := by
        cases l with
        | nil => simp at hle
        | cons a l => simp
      rw [splitRecF, hle]
      show split_into_batches l bs = l.take bs :: splitRecF n (l.drop bs) bs
      rw [← ih (l.drop bs) (by rw [List.length_drop]; omega)]
      unfold split_into_batches
      have hk : (l.length + bs - 1) / bs = (l.length - 1) / bs + 1 := by
        have e : l.length + bs - 1 = (l.length - 1) + bs := by omega
        rw [e, Nat.add_div_right _ hbs]
      have hk2 : ((l.drop bs).length + bs - 1) / bs = (l.length - 1) / bs := by
        rw [List.length_drop]
        rcases le_or_lt l.length bs with hc | hc
        · have e1 : l.length - bs = 0 := by omega
          rw [e1]
          rw [Nat.div_eq_of_lt (show 0 + bs - 1 < bs by omega),
            Nat.div_eq_of_lt (show l.length - 1 < bs by omega)]
        · have e1 : l.length - bs + bs - 1 = (l.length - bs - 1) + bs := by
            omega
          have e2 : l.length - 1 = (l.length - bs - 1) + bs := by omega
          rw [e1, e2, Nat.add_div_right _ hbs]
      rw [hk, hk2]
      rw [List.range']
      rw [List.map_cons]
      have hshift := range'_shift bs ((l.length - 1) / bs) 0 bs
      rw [Nat.add_zero] at hshift
      rw [Nat.zero_add, hshift, List.map_map]
      simp only [List.drop_zero]
      have hfun : ((fun i => (l.drop i).take bs) ∘ (fun x => bs + x))
          = (fun i => (((l.drop bs).drop i).take bs)) := by
        funext i
        show (l.drop (bs + i)).take bs = ((l.drop bs).drop i).take bs
        rw [List.drop_drop]
      rw [hfun]

theorem splitRecF_join {α : Type} (bs : Nat) (hbs : 0 < bs) :
    ∀ (n : Nat) (l : List α), l.length ≤ n →
      catMap (fun b => b) (splitRecF n l bs) = l := by
  intro n
  induction n with
  | zero =>
    intro l hl
    have : l = [] := List.length_eq_zero.mp (by omega)
    subst this
    rfl
  | succ n ih =>
    intro l hl
    rw [splitRecF]
    cases hle : l.isEmpty with
    | true =>
      cases l with
      | nil => rfl
      | cons a l => simp at hle
    | false =>
      rw [if_neg (by simp)]
      rw [catMap_cons]
      have hlen : 0 < l.length := by
        cases l with
        | nil => simp at hle
        | cons a l => simp
      rw [ih (l.drop bs) (by rw [List.length_drop]; omega)]
      exact List.take_append_drop bs l

/-- The rows of `df` are exactly the concatenation of its batches. -/
theorem split_into_batches_join {α : Type} (l : List α) (bs : Nat)
    (hbs : 0 < bs) :
    catMap (fun b => b) (split_into_batches l bs) = l := by
  rw [split_into_batches_eq_rec bs hbs l.length l le_rfl]
  exact splitRecF_join bs hbs l.length l le_rfl

theorem catMap_append (f : α → List β) :
    ∀ l₁ l₂ : List α, catMap f (l₁ ++ l₂) = catMap f l₁ ++ catMap f l₂ := by
  intro l₁ l₂
  induction l₁ with
  | nil => simp
  | cons a l ih => simp [ih]

theorem mem_catMap {f : α → List β} {b : β} :
    ∀ {l : List α}, b ∈ catMap f l ↔ ∃ a ∈ l, b ∈ f a := by
  intro l
  induction l with
  | nil => simp
  | cons a l ih => simp [ih, List.mem_append]

/-- `process_batch`: fan every record of the batch out (`oracle r = none`
models a fan-out whose exception was caught, yielding `result = None`), then
append to the shared buffer — in batch order — each original record paired
with its endpoint-payload map, skipping records whose result is `None`. -/
def process_batch {P : Type} (oracle : Row → Option P) (batch : List Row)
    (output_rows : List (Row × P)) : List (Row × P) :=
  ((batch.map oracle).zip batch).foldl
    (fun acc rr =>
      match rr.1 with
      | some p => acc ++ [(rr.2, p)]
      | none => acc)
    output_rows

/-- The records of a batch whose fan-out succeeded, in batch order, each
paired with its payload map. -/
def successes {P : Type} (oracle : Row → Option P) (batch : List Row) :
    List (Row × P) :=
  batch.filterMap (fun r => (oracle r).map (fun p => (r, p)))

theorem process_batch_eq {P : Type} (oracle : Row → Option P) :
    ∀ (batch : List Row) (out : List (Row × P)),
      process_batch oracle batch out = out ++ successes oracle batch := by
  intro batch
  induction batch with
  | nil => intro out; simp [process_batch, successes]
  | cons r batch ih =>
    intro out
    unfold process_batch at ih ⊢
    rw [List.map_cons, List.zip_cons_cons, List.foldl_cons]
    cases h : oracle r with
    | none =>
      rw [ih]
      simp [successes, h]
    | some p =>
      rw [ih]
      simp [successes, h]

/-- One appended chunk of the output CSV, as written by one
`to_csv(..., mode='a', header=not os.path.exists(output_file))` call. -/
structure CsvChunk (P : Type) where
  header : Bool
  rows : List (Row × P)
deriving DecidableEq

/-- Append one chunk to the output file (`none` = the file does not exist):
the header is written exactly when the file did not exist, and the file
exists afterwards. -/
def csv_append {P : Type} (file : Option (List (CsvChunk P)))
    (rows : List (Row × P)) : Option (List (CsvChunk P)) :=
  match file with
  | none => some [⟨true, rows⟩]
  | some chunks => some (chunks ++ [⟨false, rows⟩])

/-- `process_batches`: for each batch in sequence, fan the batch out into
the shared buffer, append the buffer to the CSV file, and clear the
buffer. -/
def process_batches {P : Type} (oracle : Row → Option P)
    (batches : List (List Row)) (file0 : Option (List (CsvChunk P))) :
    Option (List (CsvChunk P)) × List (Row × P) :=
  batches.foldl
    (fun st batch =>
      let buf := process_batch oracle batch st.2
      (csv_append st.1 buf, []))
    (file0, [])

/-- The row indices present in the output file
(`set(processed_data['index'])`). -/
def fileIndices {P : Type} : Option (List (CsvChunk P)) → List Nat
  | none => []
  | some chunks => catMap (fun c => c.rows.map (fun rp => rp.1.index)) chunks

/-- `main`, from the resumability check on: if the output file exists, drop
every input row whose `index` is already present in it; if any rows remain,
split them into batches and run `process_batches` against the existing
file. -/
def main_run {P : Type} (oracle : Row → Option P) (input : List Row)
    (file0 : Option (List (CsvChunk P))) (batchSize : Nat) :
    Option (List (CsvChunk P)) :=
  let bill_data :=
    match file0 with
    | none => input
    | some _ => input.filter (fun r => ¬ r.index ∈ fileIndices file0)
  if bill_data.isEmpty then file0
  else
    (process_batches oracle (split_into_batches bill_data batchSize) file0).1

theorem process_batches_some {P : Type} (oracle : Row → Option P) :
    ∀ (batches : List (List Row)) (chunks : List (CsvChunk P)),
      process_batches oracle batches (some chunks)
        = (some (chunks
            ++ batches.map (fun b => ⟨false, successes oracle b⟩)), []) := by
  intro batches
  induction batches with
  | nil => intro chunks; simp [process_batches]
  | cons b bs ih =>
    intro chunks
    unfold process_batches at ih ⊢
    rw [List.foldl_cons]
    show List.foldl _
        (csv_append (some chunks) (process_batch oracle b []), []) bs = _
    rw [process_batch_eq oracle b []]
    rw [List.nil_append]
    show List.foldl _
        (some (chunks ++ [⟨false, successes oracle b⟩]), []) bs = _
    rw [ih (chunks ++ [CsvChunk.mk false (successes oracle b)])]
    simp

theorem process_batches_none {P : Type} (oracle : Row → Option P)
    (b : List Row) (bs : List (List Row)) :
    process_batches oracle (b :: bs) none
      = (some (⟨true, successes oracle b⟩
          :: bs.map (fun x => ⟨false, successes oracle x⟩)), []) := by
  unfold process_batches
  rw [List.foldl_cons]
  show List.foldl _ (csv_append none (process_batch oracle b []), []) bs = _
  rw [process_batch_eq oracle b []]
  rw [List.nil_append]
  show List.foldl _ (some [CsvChunk.mk true (successes oracle b)], []) bs = _
  have := process_batches_some oracle bs [CsvChunk.mk true (successes oracle b)]
  unfold process_batches at this
  rw [this]
  simp

/-- C8: after each batch and before the next one, exactly the records of
the batch whose fan-out completed without an exception are appended to the
persistent output — each as the original record paired with its
endpoint-payload map, in batch order; the chunk carries column headers
exactly when the output file did not yet exist (only the very first chunk of
a fresh file); and the in-memory row buffer is empty afterwards. -/
theorem C8_batch_checkpointing :
    (∀ (P : Type) (oracle : Row → Option P) (batch : List Row),
        process_batch oracle batch []
          = batch.filterMap (fun r => (oracle r).map (fun p => (r, p))))
    ∧ (∀ (P : Type) (oracle : Row → Option P) (batches : List (List Row))
        (chunks : List (CsvChunk P)),
        process_batches oracle batches (some chunks)
          = (some (chunks
              ++ batches.map (fun b => ⟨false, successes oracle b⟩)), []))
    ∧ (∀ (P : Type) (oracle : Row → Option P) (b : List Row)
        (bs : List (List Row)),
        process_batches oracle (b :: bs) none
          = (some (⟨true, successes oracle b⟩
              :: bs.map (fun x => ⟨false, successes oracle x⟩)), [])) := by
  refine ⟨?_, ?_, ?_⟩
  · intro P oracle batch
    rw [process_batch_eq oracle batch []]
    rw [List.nil_append]
    rfl
  · intro P oracle batches chunks
    exact process_batches_some oracle batches chunks
  · intro P oracle b bs
    exact process_batches_none oracle b bs

theorem successes_fst_mem {P : Type} {oracle : Row → Option P}
    {b : List Row} {rp : Row × P} (h : rp ∈ successes oracle b) :
    rp.1 ∈ b := by
  unfold successes at h
  rw [List.mem_filterMap] at h
  obtain ⟨r, hrb, hro⟩ := h
  cases ho : oracle r with
  | none => rw [ho] at hro; simp at hro
  | some p =>
    rw [ho] at hro
    simp only [Option.map_some'] at hro
    injection hro with h2
    rw [← h2]
    exact hrb

/-- C7: on a re-run with an existing output file, the rows fanned out
(the concatenation of the batches) are exactly the input rows whose `index`
is not already present in the file; and no already-persisted row index gains
any occurrence in the final output (its count is unchanged). -/
theorem C7_resume_skips_processed (P : Type) (oracle : Row → Option P)
    (input : List Row) (chunks : List (CsvChunk P)) (bs : Nat)
    (hbs : 0 < bs) :
    catMap (fun b => b)
        (split_into_batches
          (input.filter
            (fun r => ¬ r.index ∈ fileIndices (P := P) (some chunks))) bs)
      = input.filter (fun r => ¬ r.index ∈ fileIndices (P := P) (some chunks))
    ∧ (∀ i ∈ fileIndices (P := P) (some chunks),
        (fileIndices (main_run oracle input (some chunks) bs)).count i
          = (fileIndices (P := P) (some chunks)).count i) := by
  constructor
  · exact split_into_batches_join _ bs hbs
  · intro i hi
    unfold main_run
    dsimp only
    split
    · rfl
    · rw [process_batches_some]
      show (fileIndices (some (chunks
          ++ (split_into_batches
              (input.filter (fun r =>
                ¬ r.index ∈ fileIndices (P := P) (some chunks))) bs).map
            (fun b => ⟨false, successes oracle b⟩)))).count i = _
      show (catMap (fun c => c.rows.map (fun rp => rp.1.index)) (chunks
          ++ (split_into_batches
              (input.filter (fun r =>
                ¬ r.index ∈ fileIndices (P := P) (some chunks))) bs).map
            (fun b => ⟨false, successes oracle b⟩))).count i = _
      rw [catMap_append, List.count_append]
      have hzero : (catMap (fun c => c.rows.map (fun rp => rp.1.index))
          ((split_into_batches
              (input.filter (fun r =>
                ¬ r.index ∈ fileIndices (P := P) (some chunks))) bs).map
            (fun b => (⟨false, successes oracle b⟩ : CsvChunk P)))).count i
          = 0 := by
        rw [List.count_eq_zero]
        intro hmem
        rw [mem_catMap] at hmem
        obtain ⟨c, hc, hic⟩ := hmem
        rw [List.mem_map] at hc
        obtain ⟨b, hb, rfl⟩ := hc
        rw [List.mem_map] at hic
        obtain ⟨rp, hrp, hrpi⟩ := hic
        have hr1 : rp.1 ∈ b := successes_fst_mem hrp
        have hrrem : rp.1 ∈ input.filter (fun r =>
            ¬ r.index ∈ fileIndices (P := P) (some chunks)) := by
          have hcm : rp.1 ∈ catMap (fun x => x)
              (split_into_batches
                (input.filter (fun r =>
                  ¬ r.index ∈ fileIndices (P := P) (some chunks))) bs) :=
            mem_catMap.mpr ⟨b, hb, hr1⟩
          rw [split_into_batches_join _ bs hbs] at hcm
          exact hcm
        rw [List.mem_filter] at hrrem
        have hnot := hrrem.2
        simp only [decide_eq_true_eq] at hnot
        exact hnot (hrpi ▸ hi)
      rw [hzero]
      show (catMap (fun c => c.rows.map (fun rp => rp.1.index)) chunks).count i
          + 0 = (catMap (fun c => c.rows.map (fun rp => rp.1.index)) chunks).count i
      omega

/-- The ten input rows (indices 1..10) of the C7 witness scenario. -/
def inputRows : List Row :=
  (List.range 10).map (fun i => ⟨i + 1, 118, (i : Int) + 1, "hr"⟩)

/-- Output file after the first partial run: rows 1..4 persisted. -/
def doneChunks : List (CsvChunk Nat) :=
  [⟨true, (List.range 4).map (fun i => (⟨i + 1, 118, (i : Int) + 1, "hr"⟩, 0))⟩]

/-- Fan-out oracle with no failures. -/
def oracleAll : Row → Option Nat := fun _ => some 0

/-- C7 witness: re-running on inputs {1..10} with rows 1..4 persisted and
batch size 4 filters the input down to rows 5..10, and the resumability
theorem applies to this scenario. -/
theorem C7_resume_skips_processed_witness :
    ((0 < 4
        ∧ inputRows.filter
            (fun r => ¬ r.index ∈ fileIndices (P := Nat) (some doneChunks))
          = (List.range 6).map (fun i => ⟨i + 5, 118, (i : Int) + 5, "hr"⟩))
      ∧ (catMap (fun b => b)
            (split_into_batches
              (inputRows.filter
                (fun r =>
                  ¬ r.index ∈ fileIndices (P := Nat) (some doneChunks))) 4)
          = inputRows.filter
              (fun r => ¬ r.index ∈ fileIndices (P := Nat) (some doneChunks))
        ∧ (∀ i ∈ fileIndices (P := Nat) (some doneChunks),
            (fileIndices
                (main_run oracleAll inputRows (some doneChunks) 4)).count i
              = (fileIndices (P := Nat) (some doneChunks)).count i))) :=
  ⟨⟨by decide, by decide⟩,
    C7_resume_skips_processed Nat oracleAll inputRows doneChunks 4 (by decide)⟩

end Filler

namespace Extract

/-- A parsed Python literal, as produced by `ast.literal_eval` on the
JSON-like column text of `bill_info_filled.csv`. -/
inductive PyVal where
  | str (s : String)
  | int (z : Int)
  | bool (b : Bool)
  | none
  | list (xs : List PyVal)
  | dict (xs : List (String × PyVal))
deriving BEq

/-- The exceptions `ast.literal_eval` may raise; the extraction functions
catch exactly `SyntaxError` and `ValueError`. -/
inductive LitErr where
  | syntaxError
  | valueError
  | other
deriving DecidableEq

/-- An uncaught Python exception escaping an extraction function. -/
inductive PyExn where
  | typeError
  | keyError
  | attributeError
  | uncaught (e : LitErr)
deriving DecidableEq

/-- `key in v`: dict key test, list membership, substring test on strings;
`TypeError` otherwise. -/
def pyIn (key : String) : PyVal → Except PyExn Bool
  | .dict xs => .ok (xs.any (fun kv => kv.1 == key))
  | .list xs => .ok (xs.contains (.str key))
  | .str s => .ok (if key.isEmpty then true
      else decide (2 ≤ (s.splitOn key).length))
  | _ => .error .typeError

/-- `v[key]` subscription (dicts only; `KeyError` on a missing key). -/
def pyGetItem (v : PyVal) (key : String) : Except PyExn PyVal :=
  match v with
  | .dict xs =>
    match xs.find? (fun kv => kv.1 == key) with
    | some kv => .ok kv.2
    | Option.none => .error .keyError
  | _ => .error .typeError

/-- `v.get(key, dflt)` (only dicts have `.get`; anything else raises
`AttributeError`). -/
def pyGetD (v : PyVal) (key : String) (dflt : PyVal) : Except PyExn PyVal :=
  match v with
  | .dict xs =>
    match xs.find? (fun kv => kv.1 == key) with
    | some kv => .ok kv.2
    | Option.none => .ok dflt
  | _ => .error .attributeError

/-- `len(v)`. -/
def pyLen (v : PyVal) : Except PyExn Nat :=
  match v with
  | .list xs => .ok xs.length
  | .str s => .ok s.length
  | .dict xs => .ok xs.length
  | _ => .error .typeError

/-- Iteration `for x in v`: the elements of a list, the keys of a dict;
`TypeError` otherwise. -/
def pyElems (v : PyVal) : Except PyExn (List PyVal) :=
  match v with
  | .list xs => .ok xs
  | .dict xs => .ok (xs.map (fun kv => .str kv.1))
  | _ => .error .typeError

/-- Python truthiness. -/
def pyTruthy : PyVal → Bool
  | .str s => !s.isEmpty
  | .int z => z != 0
  | .bool b => b
  | .none => false
  | .list xs => !xs.isEmpty
  | .dict xs => !xs.isEmpty

mutual
/-- `repr(v)` for parsed literals. -/
def pyRepr : PyVal → String
  | .str s => "'" ++ s ++ "'"
  | .int z => toString z
  | .bool b => if b then "True" else "False"
  | .none => "None"
  | .list xs => "[" ++ pyReprList xs ++ "]"
  | .dict xs => "\x7b" ++ pyReprDict xs ++ "\x7d"

def pyReprList : List PyVal → String
  | [] => ""
  | [x] => pyRepr x
  | x :: xs => pyRepr x ++ ", " ++ pyReprList xs

def pyReprDict : List (String × PyVal) → String
  | [] => ""
  | [kv] => "'" ++ kv.1 ++ "': " ++ pyRepr kv.2
  | kv :: xs => "'" ++ kv.1 ++ "': " ++ pyRepr kv.2 ++ ", " ++ pyReprDict xs
end

/-- `str(v)` as invoked by an f-string: strings unquoted, everything else
via its repr. -/
def pyStr : PyVal → String
  | .str s => s
  | v => pyRepr v

/-- `'; '.join(xs)`: every element must be a string, else `TypeError`. -/
def pyJoin (sep : String) (xs : List PyVal) : Except PyExn String := do
  let strs ← xs.mapM (fun v =>
    match v with
    | PyVal.str t => Except.ok t
    | _ => Except.error PyExn.typeError)
  pure (String.intercalate sep strs)

/-- `get_sponsor_info`: from the `sponsors` column text, the joined
bioguide ids, the joined sponsor names and the sponsor count; fixed
fallback `('NA', 'NA', 0)` for non-string input, and for strings that fail
`ast.literal_eval` with `SyntaxError` or `ValueError`. -/
def get_sponsor_info (litEval : String → Except LitErr PyVal) :
    PyVal → Except PyExn (PyVal × PyVal × PyVal)
  | .str s =>
    match litEval s with
    | .error .syntaxError => .ok (.str "NA", .str "NA", .int 0)
    | .error .valueError => .ok (.str "NA", .str "NA", .int 0)
    | .error e => .error (.uncaught e)
    | .ok data => do
      let hasBill ← pyIn "bill" data
      let cond ←
        if hasBill then do
          let bill ← pyGetItem data "bill"
          pyIn "sponsors" bill
        else pure false
      if cond then do
        let bill ← pyGetItem data "bill"
        let sponsor_list ← pyGetItem bill "sponsors"
        let sponsor_count ← pyLen sponsor_list
        let elems ← pyElems sponsor_list
        let pairs ← elems.mapM (fun sp => do
          let fn ← pyGetD sp "firstName" (.str "")
          let ln ← pyGetD sp "lastName" (.str "")
          let bg ← pyGetD sp "bioguideId" (.str "")
          pure ((pyStr fn ++ " " ++ pyStr ln).trim, bg))
        let idsStr ← pyJoin "; " (pairs.map (fun pr => pr.2))
        pure (.str idsStr,
          .str (String.intercalate "; " (pairs.map (fun pr => pr.1))),
          .int sponsor_count)
      else pure (.str "NA", .str "NA", .int 0)
  | _ => .ok (.str "NA", .str "NA", .int 0)

/-- `get_summaries_count`: `data['pagination']['count']` when present,
0 otherwise; fixed fallback 0 for non-string input and for strings that
fail `ast.literal_eval` with `SyntaxError` or `ValueError`. -/
def get_summaries_count (litEval : String → Except LitErr PyVal) :
    PyVal → Except PyExn PyVal
  | .str s =>
    match litEval s with
    | .error .syntaxError => .ok (.int 0)
    | .error .valueError => .ok (.int 0)
    | .error e => .error (.uncaught e)
    | .ok data => do
      let h1 ← pyIn "pagination" data
      let cond ←
        if h1 then do
          let pg ← pyGetItem data "pagination"
          pyIn "count" pg
        else pure false
      if cond then do
        let pg ← pyGetItem data "pagination"
        pyGetItem pg "count"
      else pure (.int 0)
  | _ => .ok (.int 0)

/-- `get_subject_info`: subject count and joined subject names, policy-area
count and joined policy-area names; fixed fallback `(0, 'NA', 0, 'NA')` for
non-string input and for strings that fail `ast.literal_eval` with
`SyntaxError` or `ValueError`. -/
def get_subject_info (litEval : String → Except LitErr PyVal) :
    PyVal → Except PyExn (PyVal × PyVal × PyVal × PyVal)
  | .str s =>
    match litEval s with
    | .error .syntaxError => .ok (.int 0, .str "NA", .int 0, .str "NA")
    | .error .valueError => .ok (.int 0, .str "NA", .int 0, .str "NA")
    | .error e => .error (.uncaught e)
    | .ok data => do
      let h1 ← pyIn "subjects" data
      let (subject_count, subject_texts, policy_area_count, policy_area_texts) ←
        if h1 then do
          let subjects_data ← pyGetItem data "subjects"
          let hls ← pyIn "legislativeSubjects" subjects_data
          let lsCond ←
            if hls then do
              let ls ← pyGetItem subjects_data "legislativeSubjects"
              pure (pyTruthy ls)
            else pure false
          let (subject_count, subject_texts) ←
            if lsCond then do
              let subjects_list ← pyGetItem subjects_data "legislativeSubjects"
              let cnt ← pyLen subjects_list
              let elems ← pyElems subjects_list
              let texts ← elems.mapM
                (fun sub => pyGetD sub "name" (.str ""))
              pure (cnt, texts)
            else pure (0, [])
          let hpa ← pyIn "policyArea" subjects_data
          let (policy_area_count, policy_area_texts) ←
            if hpa then do
              let policy_area ← pyGetItem subjects_data "policyArea"
              match policy_area with
              | .dict _ => do
                let nm ← pyGetD policy_area "name" (.str "")
                if pyTruthy nm then pure (1, [nm]) else pure (0, [])
              | .list elems => do
                let raw ← elems.mapM (fun p => pyGetD p "name" (.str ""))
                let nms := raw.filter (fun vv => pyTruthy vv)
                pure (nms.length, nms)
              | _ => pure (0, [])
            else pure (0, [])
          pure (subject_count, subject_texts,
            policy_area_count, policy_area_texts)
        else pure (0, [], 0, [])
      let sts ←
        if subject_texts.isEmpty then pure "NA"
        else pyJoin "; " subject_texts
      let pas ←
        if policy_area_texts.isEmpty then pure "NA"
        else pyJoin "; " policy_area_texts
      pure (.int subject_count, .str sts, .int policy_area_count, .str pas)
  | _ => .ok (.int 0, .str "NA", .int 0, .str "NA")

/-- `get_date(summary)`: `summary.get('updateDate', '') or
summary.get('actionDate', '')`. -/
def get_date (summary : PyVal) : Except PyExn PyVal := do
  let u ← pyGetD summary "updateDate" (.str "")
  if pyTruthy u then pure u else pyGetD summary "actionDate" (.str "")

/-- Stable descending insertion by string key, modelling
`sorted(..., key=get_date, reverse=True)` (ties keep original order). -/
def insertDesc (x : String × PyVal) : List (String × PyVal) →
    List (String × PyVal)
  | [] => [x]
  | y :: ys => if y.1 ≤ x.1 then x :: y :: ys else y :: insertDesc x ys

def sortDesc : List (String × PyVal) → List (String × PyVal)
  | [] => []
  | x :: xs => insertDesc x (sortDesc xs)

/-- `get_latest_summary_text`: sort the summaries by date descending and
return the latest one's `text`; fixed fallback `'NA'` for non-string input
and for strings that fail `ast.literal_eval` with `SyntaxError` or
`ValueError`. -/
def get_latest_summary_text (litEval : String → Except LitErr PyVal) :
    PyVal → Except PyExn PyVal
  | .str s =>
    match litEval s with
    | .error .syntaxError => .ok (.str "NA")
    | .error .valueError => .ok (.str "NA")
    | .error e => .error (.uncaught e)
    | .ok data => do
      let h1 ← pyIn "summaries" data
      let cond ←
        if h1 then do
          let sm ← pyGetItem data "summaries"
          pure (match sm with | .list _ => true | _ => false)
        else pure false
      if cond then do
        let sm ← pyGetItem data "summaries"
        let summaries_list ← pyElems sm
        if summaries_list.isEmpty then pure (.str "NA")
        else do
          let keyed ← summaries_list.mapM (fun x => do
            let k ← get_date x
            match k with
            | PyVal.str t => Except.ok (t, x)
            | _ => Except.error PyExn.typeError)
          match sortDesc keyed with
          | [] => pure (.str "NA")
          | latest :: _ => pyGetD latest.2 "text" (.str "NA")
      else pure (.str "NA")
  | _ => .ok (.str "NA")

/-- C10: each field-extraction function returns its fixed fallback default
— without raising — on every non-string input and on every string whose
`ast.literal_eval` fails with `SyntaxError` or `ValueError`. -/
theorem C10_fallback_defaults (litEval : String → Except LitErr PyVal)
    (v : PyVal)
    (h : (∀ s, v ≠ .str s)
      ∨ (∃ s, v = .str s
          ∧ (litEval s = .error .syntaxError
            ∨ litEval s = .error .valueError))) :
    get_sponsor_info litEval v = .ok (.str "NA", .str "NA", .int 0)
      ∧ get_summaries_count litEval v = .ok (.int 0)
      ∧ get_subject_info litEval v = .ok (.int 0, .str "NA", .int 0, .str "NA")
      ∧ get_latest_summary_text litEval v = .ok (.str "NA") := by
  rcases h with h | ⟨s, rfl, h⟩
  · cases v with
    | str s => exact absurd rfl (h s)
    | int z => exact ⟨rfl, rfl, rfl, rfl⟩
    | bool b => exact ⟨rfl, rfl, rfl, rfl⟩
    | none => exact ⟨rfl, rfl, rfl, rfl⟩
    | list xs => exact ⟨rfl, rfl, rfl, rfl⟩
    | dict xs => exact ⟨rfl, rfl, rfl, rfl⟩
  · rcases h with h | h <;>
      exact ⟨by simp [get_sponsor_info, h], by simp [get_summaries_count, h],
        by simp [get_subject_info, h], by simp [get_latest_summary_text, h]⟩

/-- A literal evaluator that always fails with `SyntaxError`. -/
def litEvalFail : String → Except LitErr PyVal := fun _ => .error .syntaxError

/-- C10 witness: the fallback theorem applies to the non-string input `7`
(and, through its hypothesis, to unparseable strings). -/
theorem C10_fallback_defaults_witness :
    ((∀ s, (PyVal.int 7) ≠ PyVal.str s)
        ∨ (∃ s, (PyVal.int 7) = PyVal.str s
            ∧ (litEvalFail s = .error .syntaxError
              ∨ litEvalFail s = .error .valueError)))
      ∧ (get_sponsor_info litEvalFail (.int 7)
            = .ok (.str "NA", .str "NA", .int 0)
        ∧ get_summaries_count litEvalFail (.int 7) = .ok (.int 0)
        ∧ get_subject_info litEvalFail (.int 7)
            = .ok (.int 0, .str "NA", .int 0, .str "NA")
        ∧ get_latest_summary_text litEvalFail (.int 7) = .ok (.str "NA")) :=
  ⟨Or.inl (fun s h => PyVal.noConfusion h),
    C10_fallback_defaults litEvalFail (.int 7)
      (Or.inl (fun s h => PyVal.noConfusion h))⟩

end Extract
